import Mathlib

/-!
Verification of the cook configuration-management engine.

Shallow embedding of the engine's core data model and operations, translated
from the Python sources under src/cook:
  - core/resource.py   : attribute states, Change, Plan, the shared plan algorithm
  - core/executor.py   : Executor.add, Executor.apply, trigger pass, _save_state
  - resources/*.py     : the five concrete resource types (check / desired_state)
  - transport/*.py     : local and ssh transports, the null transport
  - state/store.py     : the persisted ResourceState rows and their round trip
  - monitor/drift.py   : drift detection

Python dict values of attribute states are modelled by the inductive type
Value (JSON-like values: the engine only stores null, bools, ints, strings,
lists and string-keyed maps in its states).  Python dicts are modelled as
association lists in insertion order; Python None is Value.vnull.  Effectful
calls through the transport are modelled by explicit oracle records passed to
the embedded functions; a Python function that may raise is embedded in
Except with the message of the raised exception.
-/

namespace Cook

/-- JSON-like attribute values stored in desired_state / actual_state maps. -/
inductive Value where
  | vnull
  | vbool (b : Bool)
  | vint  (n : Int)
  | vstr  (s : String)
  | vlist (xs : List Value)
  | vobj  (kvs : List (String × Value))
deriving Repr

mutual

/-- Structural equality of values (Python == on the stored JSON-like data). -/
def Value.beq : Value → Value → Bool
  | .vnull, .vnull => true
  | .vbool a, .vbool b => a == b
  | .vint a, .vint b => a == b
  | .vstr a, .vstr b => a == b
  | .vlist xs, .vlist ys => Value.beqL xs ys
  | .vobj xs, .vobj ys => Value.beqKV xs ys
  | _, _ => false

def Value.beqL : List Value → List Value → Bool
  | [], [] => true
  | x :: xs, y :: ys => Value.beq x y && Value.beqL xs ys
  | _, _ => false

def Value.beqKV : List (String × Value) → List (String × Value) → Bool
  | [], [] => true
  | kv :: xs, kv2 :: ys => kv.1 == kv2.1 && Value.beq kv.2 kv2.2 && Value.beqKV xs ys
  | _, _ => false

end

theorem Value.eq_of_beq_aux :
    ∀ (n : Nat) (a b : Value), sizeOf a ≤ n → Value.beq a b = true → a = b := by
  intro n
  induction n with
  | zero =>
    intro a b hs _
    exact absurd hs (by cases a <;> simp)
  | succ n ih =>
    have ihL : ∀ (xs ys : List Value), sizeOf xs ≤ n + 1 →
        Value.beqL xs ys = true → xs = ys := by
      intro xs
      induction xs with
      | nil =>
        intro ys _ h
        cases ys with
        | nil => rfl
        | cons y ys => simp [Value.beqL] at h
      | cons x xs ihxs =>
        intro ys hs h
        cases ys with
        | nil => simp [Value.beqL] at h
        | cons y ys =>
          simp only [Value.beqL, Bool.and_eq_true] at h
          have hsz := List.cons.sizeOf_spec x xs
          have hx : sizeOf x ≤ n := by omega
          have hxs : sizeOf xs ≤ n + 1 := by omega
          rw [ih x y hx h.1, ihxs ys hxs h.2]
    have ihKV : ∀ (xs ys : List (String × Value)), sizeOf xs ≤ n + 1 →
        Value.beqKV xs ys = true → xs = ys := by
      intro xs
      induction xs with
      | nil =>
        intro ys _ h
        cases ys with
        | nil => rfl
        | cons y ys => simp [Value.beqKV] at h
      | cons kv xs ihxs =>
        obtain ⟨k, v⟩ := kv
        intro ys hs h
        cases ys with
        | nil => simp [Value.beqKV] at h
        | cons kv2 ys =>
          obtain ⟨k2, v2⟩ := kv2
          simp only [Value.beqKV, Bool.and_eq_true, beq_iff_eq] at h
          have hsz1 := List.cons.sizeOf_spec (k, v) xs
          have hsz2 := Prod.mk.sizeOf_spec k v
          have hv : sizeOf v ≤ n := by omega
          have hxs : sizeOf xs ≤ n + 1 := by omega
          rw [h.1.1, ih v v2 hv h.1.2, ihxs ys hxs h.2]
    intro a b hs h
    cases a <;> cases b <;> simp [Value.beq] at h ⊢
    · exact h
    · exact h
    · exact h
    · rename_i xs ys
      have hsz := Value.vlist.sizeOf_spec xs
      exact ihL xs ys (by omega) h
    · rename_i xs ys
      have hsz := Value.vobj.sizeOf_spec xs
      exact ihKV xs ys (by omega) h

theorem Value.eq_of_beq {a b : Value} (h : Value.beq a b = true) : a = b :=
  Value.eq_of_beq_aux (sizeOf a) a b (Nat.le_refl _) h

theorem Value.beq_refl_aux :
    ∀ (n : Nat) (a : Value), sizeOf a ≤ n → Value.beq a a = true := by
  intro n
  induction n with
  | zero =>
    intro a hs
    exact absurd hs (by cases a <;> simp)
  | succ n ih =>
    have ihL : ∀ (xs : List Value), sizeOf xs ≤ n + 1 → Value.beqL xs xs = true := by
      intro xs
      induction xs with
      | nil => intro _; rfl
      | cons x xs ihxs =>
        intro hs
        have hsz := List.cons.sizeOf_spec x xs
        have hx : sizeOf x ≤ n := by omega
        have hxs : sizeOf xs ≤ n + 1 := by omega
        simp [Value.beqL, ih x hx, ihxs hxs]
    have ihKV : ∀ (xs : List (String × Value)), sizeOf xs ≤ n + 1 →
        Value.beqKV xs xs = true := by
      intro xs
      induction xs with
      | nil => intro _; rfl
      | cons kv xs ihxs =>
        obtain ⟨k, v⟩ := kv
        intro hs
        have hsz1 := List.cons.sizeOf_spec (k, v) xs
        have hsz2 := Prod.mk.sizeOf_spec k v
        have hv : sizeOf v ≤ n := by omega
        have hxs : sizeOf xs ≤ n + 1 := by omega
        simp [Value.beqKV, ih v hv, ihxs hxs]
    intro a hs
    cases a <;> simp [Value.beq]
    · rename_i xs
      have hsz := Value.vlist.sizeOf_spec xs
      exact ihL xs (by omega)
    · rename_i xs
      have hsz := Value.vobj.sizeOf_spec xs
      exact ihKV xs (by omega)

theorem Value.beq_refl (a : Value) : Value.beq a a = true :=
  Value.beq_refl_aux (sizeOf a) a (Nat.le_refl _)

instance : DecidableEq Value := fun a b =>
  decidable_of_iff (Value.beq a b = true)
    ⟨Value.eq_of_beq, fun h => h ▸ Value.beq_refl a⟩

/-- An attribute state: a Python dict in insertion order (resource.py uses
dicts from attribute name to value). -/
def AttrState : Type := List (String × Value)

instance : DecidableEq AttrState := by
  unfold AttrState
  infer_instance

/-- Python dict.get(key): the stored value, or None when the key is absent. -/
def pyGet (st : AttrState) (k : String) : Value :=
  (List.lookup k st).getD Value.vnull

/-- Python truthiness of a stored value (used by plan on the exists flags). -/
def truthy : Value → Bool
  | .vnull => false
  | .vbool b => b
  | .vint n => n != 0
  | .vstr s => s.length != 0
  | .vlist xs => !xs.isEmpty
  | .vobj kvs => !kvs.isEmpty

/-- Action enum of core/resource.py. -/
inductive Action where
  | none
  | create
  | update
  | delete
deriving Repr, DecidableEq

/-- Change dataclass of core/resource.py: one property difference. -/
structure Change where
  field     : String
  fromValue : Value
  toValue   : Value
deriving Repr, DecidableEq

/-- Plan dataclass of core/resource.py. -/
structure Plan where
  action  : Action
  changes : List Change
  reason  : String
deriving Repr, DecidableEq

/-- Plan.has_changes. -/
def Plan.hasChanges (p : Plan) : Bool :=
  p.action != Action.none && !p.changes.isEmpty

/-- Resource._detect_changes: walk the desired attributes in order, skip
exists, skip keys that are None on both sides, record a Change where the
actual value (dict.get, None when absent) differs. -/
def detectChanges (actual desired : AttrState) : List Change :=
  desired.filterMap fun kv =>
    if kv.1 = "exists" then Option.none
    else if kv.2 = Value.vnull ∧ pyGet actual kv.1 = Value.vnull then Option.none
    else if pyGet actual kv.1 ≠ kv.2 then some ⟨kv.1, pyGet actual kv.1, kv.2⟩
    else Option.none

/-- Change list generated by plan for action create: every desired attribute
except exists, from None. -/
def createChanges (desired : AttrState) : List Change :=
  desired.filterMap fun kv =>
    if kv.1 = "exists" then Option.none else some ⟨kv.1, Value.vnull, kv.2⟩

/-- Change list generated by plan for action delete: every actual attribute
except exists, to None. -/
def deleteChanges (actual : AttrState) : List Change :=
  actual.filterMap fun kv =>
    if kv.1 = "exists" then Option.none else some ⟨kv.1, kv.2, Value.vnull⟩

/-- Resource.plan of core/resource.py, as a function of the checked actual
state and of the desired state. -/
def planOf (actual desired : AttrState) : Plan :=
  let exists_ := truthy ((List.lookup "exists" actual).getD (Value.vbool false))
  let shouldExist := truthy ((List.lookup "exists" desired).getD (Value.vbool true))
  if !exists_ && shouldExist then
    { action := Action.create, changes := createChanges desired,
      reason := "Resource does not exist" }
  else if exists_ && !shouldExist then
    { action := Action.delete, changes := deleteChanges actual,
      reason := "Resource should not exist" }
  else if !exists_ && !shouldExist then
    { action := Action.none, changes := [], reason := "Resource correctly absent" }
  else
    let changes := detectChanges actual desired
    if changes.isEmpty then
      { action := Action.none, changes := [], reason := "No changes needed" }
    else
      { action := Action.update, changes := changes,
        reason := "Properties differ from desired state" }

/-- The change list of the update branch, phrased as the spec phrases it: one
change per non-exists desired key whose actual value differs structurally
(absent keys read as null, so null on both sides is equal). -/
def diffChanges (actual desired : AttrState) : List Change :=
  desired.filterMap fun kv =>
    if kv.1 = "exists" then Option.none
    else if pyGet actual kv.1 = kv.2 then Option.none
    else some ⟨kv.1, pyGet actual kv.1, kv.2⟩

theorem detectChanges_eq_diffChanges (actual desired : AttrState) :
    detectChanges actual desired = diffChanges actual desired := by
  unfold detectChanges diffChanges
  induction desired with
  | nil => rfl
  | cons kv rest ih =>
    rw [List.filterMap_cons, List.filterMap_cons, ih]
    by_cases hk : kv.1 = "exists"
    · simp [hk]
    · by_cases heq : pyGet actual kv.1 = kv.2
      · by_cases hnull : kv.2 = Value.vnull ∧ pyGet actual kv.1 = Value.vnull
        · simp [hk, hnull, heq]
        · simp [hk, hnull, heq]
      · have hnull : ¬(kv.2 = Value.vnull ∧ pyGet actual kv.1 = Value.vnull) := by
          intro h
          exact heq (h.2.trans h.1.symm)
        simp [hk, hnull, heq]

/-- C2: for every resource and platform, with a = check(platform).exists and
d = desired_state().exists, plan returns: create with one change
(key, null, desired value) per non-exists desired key when not a and d;
delete with one change (key, actual value, null) per non-exists actual key
when a and not d; none with no changes when not a and not d; and when a and
d, one change per non-exists desired key whose actual value differs under
structural equality (null on both sides counting as equal), with action
update exactly when such a change exists and none otherwise. -/
theorem c2_plan_four_cases (actual desired : AttrState) (a d : Bool)
    (ha : List.lookup "exists" actual = some (Value.vbool a))
    (hd : List.lookup "exists" desired = some (Value.vbool d)) :
    (a = false → d = true →
      (planOf actual desired).action = Action.create ∧
      (planOf actual desired).changes = createChanges desired) ∧
    (a = true → d = false →
      (planOf actual desired).action = Action.delete ∧
      (planOf actual desired).changes = deleteChanges actual) ∧
    (a = false → d = false →
      (planOf actual desired).action = Action.none ∧
      (planOf actual desired).changes = []) ∧
    (a = true → d = true →
      (planOf actual desired).changes = diffChanges actual desired ∧
      ((planOf actual desired).action =
        (if (diffChanges actual desired).isEmpty then Action.none else Action.update))) := by
  refine ⟨?_, ?_, ?_, ?_⟩ <;> intro h1 h2 <;> subst h1 <;> subst h2
  · constructor <;> simp [planOf, ha, hd, truthy]
  · constructor <;> simp [planOf, ha, hd, truthy]
  · constructor <;> simp [planOf, ha, hd, truthy]
  · rw [show planOf actual desired =
        (let changes := detectChanges actual desired
         if changes.isEmpty then
           { action := Action.none, changes := [], reason := "No changes needed" }
         else
           { action := Action.update, changes := changes,
             reason := "Properties differ from desired state" }) by
      simp [planOf, ha, hd, truthy]]
    rw [detectChanges_eq_diffChanges]
    rcases hl : diffChanges actual desired with _ | ⟨c, cs⟩ <;> simp [hl]

theorem c2_plan_four_cases_witness :
    (planOf
      [("exists", Value.vbool true), ("content", Value.vstr "old")]
      [("exists", Value.vbool true), ("content", Value.vstr "new"),
       ("mode", Value.vnull)]).changes =
      [⟨"content", Value.vstr "old", Value.vstr "new"⟩] ∧
    (planOf
      [("exists", Value.vbool true), ("content", Value.vstr "old")]
      [("exists", Value.vbool true), ("content", Value.vstr "new"),
       ("mode", Value.vnull)]).action = Action.update := by
  have h := (c2_plan_four_cases
    [("exists", Value.vbool true), ("content", Value.vstr "old")]
    [("exists", Value.vbool true), ("content", Value.vstr "new"),
     ("mode", Value.vnull)] true true rfl rfl).2.2.2 rfl rfl
  refine ⟨?_, ?_⟩
  · rw [h.1]; rfl
  · rw [h.2]; rfl

/-! ## Executor: resource registration (core/executor.py, Executor.add) -/

/-- A registered resource as the executor sees it: its id, whether it is a
Service, its trigger lists (service.py normalises these to ids at
construction), and a payload standing for the rest of the object (the unit
tests' mock resources carry such a distinguishing value). -/
structure ResRec where
  id : String
  isService : Bool := false
  reloadOn : List String := []
  restartOn : List String := []
  value : String := ""
deriving Repr, DecidableEq

/-- Executor state: the ordered resource list and the id index
(self.resources and self._registry). -/
structure ExecutorSt where
  resources : List ResRec
  registry  : List (String × ResRec)
deriving Repr, DecidableEq

def ExecutorSt.empty : ExecutorSt := ⟨[], []⟩

/-- Executor.add: raises ValueError on a duplicate id, otherwise appends the
resource and indexes it (transport binding is irrelevant to the registry
shape and not modelled here). -/
def ExecutorSt.add (ex : ExecutorSt) (r : ResRec) : Except String ExecutorSt :=
  if (List.lookup r.id ex.registry).isSome then
    Except.error ("Duplicate resource: " ++ r.id)
  else
    Except.ok
      { resources := ex.resources ++ [r],
        registry := ex.registry ++ [(r.id, r)] }

/-- Executor.get. -/
def ExecutorSt.get (ex : ExecutorSt) (rid : String) : Option ResRec :=
  List.lookup rid ex.registry

/-- C1: the claim expects Executor.add on a duplicate id to succeed with
last-writer-wins replacement, as the repository's own unit tests assert
(test_resource_replacement_last_wins).  The code instead raises ValueError
before touching the registry: replayed here on the test scenario (two mock
resources named config, id mock:config), the second add is an error. -/
theorem c1_duplicate_add_raises :
    ExecutorSt.add ExecutorSt.empty { id := "mock:config", value := "http config" } =
      Except.ok { resources := [{ id := "mock:config", value := "http config" }],
                  registry := [("mock:config", { id := "mock:config", value := "http config" })] } ∧
    ExecutorSt.add
      { resources := [{ id := "mock:config", value := "http config" }],
        registry := [("mock:config", { id := "mock:config", value := "http config" })] }
      { id := "mock:config", value := "https config" } =
      Except.error "Duplicate resource: mock:config" := by
  constructor <;> rfl

/-! ## Executor.apply, trigger pass and _save_state (core/executor.py)

The effectful pieces are oracles: plans is the plans dict of the PlanResult,
ok tells whether a given resource's apply call returns normally (false =
raises).  The run is recorded as an event trace so that ordering claims can
be stated; wall-clock duration and the post-apply check refresh do not
affect any claim and are not modelled. -/

/-- One observable step of Executor.apply: a resource-level apply invocation,
a service restart trigger, or a service reload trigger. -/
inductive Ev where
  | applyEv (id : String)
  | restartEv (id : String)
  | reloadEv (id : String)
deriving Repr, DecidableEq

/-- Phase 1 of Executor.apply: walk resources in order; skip a resource with
no plan or a plan without changes; otherwise invoke apply, appending the id
to changed_resources on success and the exception to errors on failure
(the loop continues either way).  Returns (changed, errors, trace). -/
def applyLoop (plans : String → Option Plan) (ok : String → Bool) :
    List ResRec → List String × List String × List Ev
  | [] => ([], [], [])
  | r :: rest =>
    match plans r.id with
    | Option.none => applyLoop plans ok rest
    | some p =>
      if p.hasChanges then
        if ok r.id then
          (r.id :: (applyLoop plans ok rest).1,
           (applyLoop plans ok rest).2.1,
           Ev.applyEv r.id :: (applyLoop plans ok rest).2.2)
        else
          ((applyLoop plans ok rest).1,
           ("apply failed: " ++ r.id) :: (applyLoop plans ok rest).2.1,
           Ev.applyEv r.id :: (applyLoop plans ok rest).2.2)
      else applyLoop plans ok rest

/-- Executor._trigger_service_reloads: walk all resources; for a Service,
restart when restart_on intersects the changed ids (and skip the reload
check), otherwise reload when reload_on intersects. -/
def triggerLoop (changed : List String) : List ResRec → List Ev
  | [] => []
  | r :: rest =>
    if r.isService = false then triggerLoop changed rest
    else if r.restartOn.any (fun rid => changed.contains rid) then
      Ev.restartEv r.id :: triggerLoop changed rest
    else if r.reloadOn.any (fun rid => changed.contains rid) then
      Ev.reloadEv r.id :: triggerLoop changed rest
    else triggerLoop changed rest

/-- ApplyResult of core/executor.py (duration not modelled). -/
structure ApplyRes where
  changed : List String
  errors  : List String
deriving Repr, DecidableEq

/-- Executor.apply: phase 1 applies, then (only when something changed) the
trigger pass runs over the same resource list. -/
def applyRun (resources : List ResRec) (plans : String → Option Plan)
    (ok : String → Bool) : ApplyRes × List Ev :=
  let acc := applyLoop plans ok resources
  let trace :=
    if acc.1.isEmpty then acc.2.2
    else acc.2.2 ++ triggerLoop acc.1 resources
  ({ changed := acc.1, errors := acc.2.1 }, trace)

/-- Executor._save_state status column: for every resource that has a plan, a
row is written whose status is success when the id is among the changed
resources and unchanged otherwise (the other row fields do not bear on the
claims). -/
def saveStateStatuses (resources : List ResRec) (plans : String → Option Plan)
    (changed : List String) : List (String × String) :=
  resources.filterMap fun r =>
    match plans r.id with
    | Option.none => Option.none
    | some _ => some (r.id, if changed.contains r.id then "success" else "unchanged")

/-- Does this event denote a resource-level apply invocation? -/
def Ev.isApply : Ev → Bool
  | .applyEv _ => true
  | _ => false

/-- Is this event a trigger invocation (restart or reload) aimed at id s? -/
def Ev.isTrigFor (s : String) : Ev → Bool
  | .restartEv i => i = s
  | .reloadEv i => i = s
  | .applyEv _ => false

theorem applyLoop_trace_apply (plans : String → Option Plan) (ok : String → Bool) :
    ∀ (rs : List ResRec) (e : Ev), e ∈ (applyLoop plans ok rs).2.2 → e.isApply = true := by
  intro rs
  induction rs with
  | nil => intro e he; simp [applyLoop] at he
  | cons r rest ih =>
    intro e he
    unfold applyLoop at he
    rcases hp : plans r.id with _ | p <;> rw [hp] at he <;> dsimp only at he
    · exact ih e he
    · cases hcb : p.hasChanges with
      | false =>
        rw [hcb] at he
        simp at he
        exact ih e he
      | true =>
        rw [hcb] at he
        cases hok : ok r.id with
        | true =>
          rw [hok] at he
          simp at he
          rcases he with he | he
          · subst he; rfl
          · exact ih e he
        | false =>
          rw [hok] at he
          simp at he
          rcases he with he | he
          · subst he; rfl
          · exact ih e he

theorem triggerLoop_trigger (changed : List String) :
    ∀ (rs : List ResRec) (e : Ev), e ∈ triggerLoop changed rs → e.isApply = false := by
  intro rs
  induction rs with
  | nil => intro e he; simp [triggerLoop] at he
  | cons r rest ih =>
    intro e he
    unfold triggerLoop at he
    by_cases hs : r.isService = false
    · rw [if_pos hs] at he
      exact ih e he
    · rw [if_neg hs] at he
      by_cases h1 : r.restartOn.any (fun rid => changed.contains rid) = true
      · rw [if_pos h1] at he
        rcases List.mem_cons.mp he with he | he
        · subst he; rfl
        · exact ih e he
      · rw [if_neg h1] at he
        by_cases h2 : r.reloadOn.any (fun rid => changed.contains rid) = true
        · rw [if_pos h2] at he
          rcases List.mem_cons.mp he with he | he
          · subst he; rfl
          · exact ih e he
        · rw [if_neg h2] at he
          exact ih e he

theorem triggerLoop_filter_notin (changed : List String) (s : String) :
    ∀ (rs : List ResRec), (∀ x ∈ rs, x.id ≠ s) →
      (triggerLoop changed rs).filter (Ev.isTrigFor s) = [] := by
  intro rs
  induction rs with
  | nil => intro _; rfl
  | cons r rest ih =>
    intro hno
    have hr : r.id ≠ s := hno r (List.mem_cons_self r rest)
    have hrest : ∀ x ∈ rest, x.id ≠ s := fun x hx => hno x (List.mem_cons_of_mem r hx)
    unfold triggerLoop
    by_cases h0 : r.isService = false
    · rw [if_pos h0]; exact ih hrest
    · rw [if_neg h0]
      by_cases h1 : r.restartOn.any (fun rid => changed.contains rid) = true
      · rw [if_pos h1, List.filter_cons]
        simp only [Ev.isTrigFor, decide_eq_true_eq, hr, if_false]
        simpa using ih hrest
      · rw [if_neg h1]
        by_cases h2 : r.reloadOn.any (fun rid => changed.contains rid) = true
        · rw [if_pos h2, List.filter_cons]
          simp only [Ev.isTrigFor, decide_eq_true_eq, hr, if_false]
          simpa using ih hrest
        · rw [if_neg h2]; exact ih hrest

theorem triggerLoop_filter_split (changed : List String) (r : ResRec)
    (l1 l2 : List ResRec) (h1 : ∀ x ∈ l1, x.id ≠ r.id) (h2 : ∀ x ∈ l2, x.id ≠ r.id)
    (hs : r.isService = true) :
    (triggerLoop changed (l1 ++ r :: l2)).filter (Ev.isTrigFor r.id) =
      (if r.restartOn.any (fun rid => changed.contains rid) then [Ev.restartEv r.id]
       else if r.reloadOn.any (fun rid => changed.contains rid) then [Ev.reloadEv r.id]
       else []) := by
  induction l1 with
  | nil =>
    simp only [List.nil_append]
    unfold triggerLoop
    rw [if_neg (by simp [hs])]
    by_cases hrs : r.restartOn.any (fun rid => changed.contains rid) = true
    · rw [if_pos hrs, if_pos hrs, List.filter_cons]
      simp only [Ev.isTrigFor, decide_eq_true_eq, if_pos rfl]
      rw [triggerLoop_filter_notin changed r.id l2 h2]
      simp
    · rw [if_neg hrs, if_neg hrs]
      by_cases hrl : r.reloadOn.any (fun rid => changed.contains rid) = true
      · rw [if_pos hrl, if_pos hrl, List.filter_cons]
        simp only [Ev.isTrigFor, decide_eq_true_eq, if_pos rfl]
        rw [triggerLoop_filter_notin changed r.id l2 h2]
        simp
      · rw [if_neg hrl, if_neg hrl]
        exact triggerLoop_filter_notin changed r.id l2 h2
  | cons x l1 ih =>
    have hx : x.id ≠ r.id := h1 x (List.mem_cons_self x l1)
    have hl1 : ∀ y ∈ l1, y.id ≠ r.id := fun y hy => h1 y (List.mem_cons_of_mem x hy)
    simp only [List.cons_append]
    unfold triggerLoop
    by_cases h0 : x.isService = false
    · rw [if_pos h0]; exact ih hl1
    · rw [if_neg h0]
      by_cases hb1 : x.restartOn.any (fun rid => changed.contains rid) = true
      · rw [if_pos hb1, List.filter_cons]
        simp only [Ev.isTrigFor, decide_eq_true_eq, hx, if_false]
        simpa using ih hl1
      · rw [if_neg hb1]
        by_cases hb2 : x.reloadOn.any (fun rid => changed.contains rid) = true
        · rw [if_pos hb2, List.filter_cons]
          simp only [Ev.isTrigFor, decide_eq_true_eq, hx, if_false]
          simpa using ih hl1
        · rw [if_neg hb2]; exact ih hl1

/-- C4: during Executor.apply the trace splits into a first part of pure
resource-apply events and a second part of pure trigger events (no trigger
fires before every per-resource apply has completed), and each registered
Service receives at most one trigger invocation: a restart exactly when its
restart_on list intersects the changed ids (even when reload_on also
intersects), otherwise a reload exactly when reload_on intersects, and
nothing otherwise. -/
theorem c4_triggers_after_apply_once (resources : List ResRec)
    (plans : String → Option Plan) (ok : String → Bool)
    (hnd : (resources.map (fun r => r.id)).Nodup) :
    (∃ t1 t2, (applyRun resources plans ok).2 = t1 ++ t2 ∧
      (∀ e ∈ t1, e.isApply = true) ∧ (∀ e ∈ t2, e.isApply = false)) ∧
    (∀ r ∈ resources, r.isService = true →
      ((applyRun resources plans ok).2.filter (Ev.isTrigFor r.id)) =
        (if r.restartOn.any (fun rid =>
             (applyRun resources plans ok).1.changed.contains rid) then
           [Ev.restartEv r.id]
         else if r.reloadOn.any (fun rid =>
             (applyRun resources plans ok).1.changed.contains rid) then
           [Ev.reloadEv r.id]
         else [])) := by
  constructor
  · by_cases hc : (applyLoop plans ok resources).1.isEmpty = true
    · refine ⟨(applyLoop plans ok resources).2.2, [], ?_, ?_, ?_⟩
      · simp [applyRun, hc]
      · intro e he; exact applyLoop_trace_apply plans ok resources e he
      · intro e he; simp at he
    · refine ⟨(applyLoop plans ok resources).2.2,
        triggerLoop (applyLoop plans ok resources).1 resources, ?_, ?_, ?_⟩
      · simp [applyRun, hc]
      · intro e he; exact applyLoop_trace_apply plans ok resources e he
      · intro e he; exact triggerLoop_trigger _ resources e he
  · intro r hr hsv
    obtain ⟨l1, l2, hsplit⟩ := List.append_of_mem hr
    subst hsplit
    have hids : ((l1 ++ r :: l2).map (fun r => r.id)).Nodup := hnd
    rw [List.map_append, List.map_cons] at hids
    rcases List.nodup_append.mp hids with ⟨hn1, hn2, hdisj⟩
    have h1 : ∀ x ∈ l1, x.id ≠ r.id := by
      intro x hx heq
      exact hdisj (List.mem_map.mpr ⟨x, hx, heq⟩) (List.mem_cons_self _ _)
    have h2 : ∀ x ∈ l2, x.id ≠ r.id := by
      intro x hx heq
      exact (List.nodup_cons.mp hn2).1 (List.mem_map.mpr ⟨x, hx, heq⟩)
    have ht1 : (applyLoop plans ok (l1 ++ r :: l2)).2.2.filter (Ev.isTrigFor r.id) = [] := by
      rw [List.filter_eq_nil_iff]
      intro e he
      have := applyLoop_trace_apply plans ok (l1 ++ r :: l2) e he
      cases e <;> simp_all [Ev.isApply, Ev.isTrigFor]
    by_cases hc : (applyLoop plans ok (l1 ++ r :: l2)).1.isEmpty = true
    · have hch : (applyLoop plans ok (l1 ++ r :: l2)).1 = [] :=
        List.isEmpty_iff.mp hc
      have hrun2 : (applyRun (l1 ++ r :: l2) plans ok).2 =
          (applyLoop plans ok (l1 ++ r :: l2)).2.2 := by
        simp [applyRun, hc]
      have hrun1 : (applyRun (l1 ++ r :: l2) plans ok).1.changed =
          (applyLoop plans ok (l1 ++ r :: l2)).1 := by
        simp [applyRun]
      rw [hrun2, hrun1, ht1, hch]
      simp
    · have hrun2 : (applyRun (l1 ++ r :: l2) plans ok).2 =
          (applyLoop plans ok (l1 ++ r :: l2)).2.2 ++
            triggerLoop (applyLoop plans ok (l1 ++ r :: l2)).1 (l1 ++ r :: l2) := by
        simp [applyRun, hc]
      have hrun1 : (applyRun (l1 ++ r :: l2) plans ok).1.changed =
          (applyLoop plans ok (l1 ++ r :: l2)).1 := by
        simp [applyRun]
      rw [hrun2, hrun1, List.filter_append, ht1, List.nil_append]
      exact triggerLoop_filter_split _ r l1 l2 h1 h2 hsv

/-- Seed scenario (c) of the spec: a file resource followed by a service that
lists it in both reload_on and restart_on. -/
def rFileC4 : ResRec := { id := "file:/etc/app.conf" }

def rSvcC4 : ResRec :=
  { id := "svc:app", isService := true,
    reloadOn := ["file:/etc/app.conf"], restartOn := ["file:/etc/app.conf"] }

def plansC4 : String → Option Plan := fun rid =>
  if rid = "file:/etc/app.conf" then
    some { action := Action.create,
           changes := [⟨"content", Value.vnull, Value.vstr "x"⟩],
           reason := "Resource does not exist" }
  else Option.none

theorem c4_triggers_after_apply_once_witness :
    (applyRun [rFileC4, rSvcC4] plansC4 (fun _ => true)).2.filter
        (Ev.isTrigFor "svc:app") = [Ev.restartEv "svc:app"] := by
  have h := (c4_triggers_after_apply_once [rFileC4, rSvcC4] plansC4 (fun _ => true)
      (by decide)).2 rSvcC4
      (List.mem_cons_of_mem rFileC4 (List.mem_cons_self rSvcC4 []))
      rfl
  exact h.trans (by rfl)

/-- C5: replay of a failing apply with state persistence.  Resource mock:a
raises during apply, mock:b succeeds.  The failed id is kept out of
changed_resources, the exception lands in the error list, and the later
resource still runs — but the ResourceState row written for the failed
resource carries status unchanged, not the status failed that the spec
requires (executor.py only distinguishes success from unchanged). -/
theorem c5_failed_status_is_unchanged :
    (applyRun [{ id := "mock:a" }, { id := "mock:b" }]
        (fun _ => some { action := Action.create,
                         changes := [⟨"value", Value.vnull, Value.vstr "x"⟩],
                         reason := "" })
        (fun rid => rid != "mock:a")).1.changed = ["mock:b"] ∧
    (applyRun [{ id := "mock:a" }, { id := "mock:b" }]
        (fun _ => some { action := Action.create,
                         changes := [⟨"value", Value.vnull, Value.vstr "x"⟩],
                         reason := "" })
        (fun rid => rid != "mock:a")).1.errors = ["apply failed: mock:a"] ∧
    Ev.applyEv "mock:b" ∈
      (applyRun [{ id := "mock:a" }, { id := "mock:b" }]
        (fun _ => some { action := Action.create,
                         changes := [⟨"value", Value.vnull, Value.vstr "x"⟩],
                         reason := "" })
        (fun rid => rid != "mock:a")).2 ∧
    saveStateStatuses [{ id := "mock:a" }, { id := "mock:b" }]
        (fun _ => some { action := Action.create,
                         changes := [⟨"value", Value.vnull, Value.vstr "x"⟩],
                         reason := "" })
        ["mock:b"] =
      [("mock:a", "unchanged"), ("mock:b", "success")] := by
  refine ⟨rfl, rfl, ?_, rfl⟩
  decide

/-! ## Transport oracle and Python string helpers

The transport is the only effectful dependency of the resource check
functions.  It is modelled as an oracle record; an operation that raises in
Python is an Except.error answer of the oracle, and the embedded check
functions propagate or catch it exactly where the source does. -/

structure TransportO where
  fileExists : String → Except String Bool
  runShell   : String → Except String (String × Int)
  runCommand : List String → Except String (String × Int)
  readFile   : String → Except String String

/-- Platform dataclass of core/resource.py. -/
structure PlatformRec where
  system : String
  distro : String
  version : String
  arch : String
deriving Repr, DecidableEq

/-- Python str.strip() with no argument (leading/trailing whitespace). -/
def pyStrip (s : String) : String :=
  String.mk
    (((s.toList.dropWhile Char.isWhitespace).reverse.dropWhile Char.isWhitespace).reverse)

/-- Python str.lower() (ASCII case folding, which is all the engine needs). -/
def pyToLower (s : String) : String := String.mk (s.toList.map Char.toLower)

/-- Is the needle a prefix of the haystack (character lists)? -/
def listStartsWith : List Char → List Char → Bool
  | [], _ => true
  | _ :: _, [] => false
  | a :: as, b :: bs => a = b && listStartsWith as bs

/-- Split a character list at every occurrence of the character (Python
str.split(sep) for a one-character separator, empties kept). -/
def splitChar (c : Char) : List Char → List (List Char)
  | [] => [[]]
  | d :: ds =>
    match splitChar c ds with
    | [] => [[]]
    | r :: rs => if d = c then [] :: r :: rs else (d :: r) :: rs

def pySplitStr (s : String) (c : Char) : List String :=
  (splitChar c s.toList).map String.mk

/-- Split at every character satisfying the predicate (empties kept). -/
def splitPred (p : Char → Bool) : List Char → List (List Char)
  | [] => [[]]
  | d :: ds =>
    match splitPred p ds with
    | [] => [[]]
    | r :: rs => if p d then [] :: r :: rs else (d :: r) :: rs

/-- Python str.replace: non-overlapping left-to-right replacement (for the
non-empty patterns the engine uses). -/
def listReplace (pat rep : List Char) : Nat → List Char → List Char
  | _, [] => []
  | 0, l => l
  | n + 1, c :: cs =>
    if pat ≠ [] ∧ listStartsWith pat (c :: cs) then
      rep ++ listReplace pat rep n ((c :: cs).drop pat.length)
    else
      c :: listReplace pat rep n cs

def pyReplace (s pat rep : String) : String :=
  String.mk (listReplace pat.toList rep.toList s.toList.length s.toList)

/-- Python substring containment: needle in hay. -/
def containsSub (hay needle : String) : Bool :=
  (List.range (hay.toList.length + 1)).any fun i =>
    listStartsWith needle.toList (hay.toList.drop i)

def isOctDigit (c : Char) : Bool := '0' ≤ c && c ≤ '7'

def octVal (l : List Char) : Nat :=
  l.foldl (fun acc c => acc * 8 + (c.toNat - '0'.toNat)) 0

/-- Python int(s, 8): strip, optional sign, optional 0o prefix, octal digits
(digit-group underscores, accepted by Python, are not modelled). -/
def parseOctal (s : String) : Option Int :=
  let t := (pyStrip s).toList
  let signed : Bool × List Char :=
    match t with
    | '-' :: r => (true, r)
    | '+' :: r => (false, r)
    | r => (false, r)
  let body : List Char :=
    match signed.2 with
    | '0' :: 'o' :: r => r
    | '0' :: 'O' :: r => r
    | r => r
  if body ≠ [] && body.all isOctDigit then
    some (if signed.1 then -(octVal body : Int) else (octVal body : Int))
  else Option.none

def decVal (l : List Char) : Nat :=
  l.foldl (fun acc c => acc * 10 + (c.toNat - '0'.toNat)) 0

/-- Python str.isdigit() restricted to ASCII decimal digits. -/
def pyIsDigit (s : String) : Bool :=
  s.length != 0 && s.toList.all Char.isDigit

/-- Python int(s): strip, optional sign, decimal digits. -/
def parseDec (s : String) : Option Int :=
  let t := (pyStrip s).toList
  let signed : Bool × List Char :=
    match t with
    | '-' :: r => (true, r)
    | '+' :: r => (false, r)
    | r => (false, r)
  if signed.2 ≠ [] && signed.2.all Char.isDigit then
    some (if signed.1 then -(decVal signed.2 : Int) else (decVal signed.2 : Int))
  else Option.none

/-- Python str.split() with no argument: whitespace runs, empties dropped. -/
def pySplitWs (s : String) : List String :=
  ((splitPred Char.isWhitespace s.toList).map String.mk).filter (fun x => x ≠ "")

/-! ## File resource (resources/file.py) -/

structure FileCfg where
  path : String
  content : Option String := Option.none
  source : Option String := Option.none
  template : Option String := Option.none
  ensure : String := "file"
  mode : Option Int := Option.none
  owner : Option String := Option.none
  group : Option String := Option.none

/-- File type classification from the stat output field. -/
def fileTypeOf (ft : String) : Value :=
  if containsSub (pyToLower ft) "regular" then Value.vstr "file"
  else if containsSub (pyToLower ft) "directory" then Value.vstr "directory"
  else if containsSub (pyToLower ft) "symbolic link" then Value.vstr "symlink"
  else Value.vnull

/-- File.check: existence probe, stat parse, content read for regular files
(binary/undecodable content is exposed as null).  The state dict always
carries the seven keys in this order. -/
def fileCheck (t : TransportO) (path : String) : Except String AttrState := do
  let ex ← t.fileExists path
  if ex = false then
    return [("exists", Value.vbool false), ("type", Value.vnull),
            ("content", Value.vnull), ("mode", Value.vnull),
            ("owner", Value.vnull), ("group", Value.vnull), ("size", Value.vnull)]
  else
    let r ← t.runShell
      ("stat -c '%F|%a|%s|%U|%G' '" ++ path ++ "' 2>/dev/null || stat -f '%HT|%Lp|%z|%Su|%Sg' '" ++ path ++ "'")
    let parsed : Value × Value × Value × Value × Value :=
      if r.2 = 0 then
        match pySplitStr (pyStrip r.1) '|' with
        | ft :: md :: sz :: ow :: gr :: _ =>
          (fileTypeOf ft,
           (match parseOctal md with
            | some n => Value.vint n
            | Option.none => Value.vnull),
           (if pyIsDigit sz then Value.vint (decVal sz.toList) else Value.vnull),
           Value.vstr ow, Value.vstr gr)
        | _ => (Value.vnull, Value.vnull, Value.vnull, Value.vnull, Value.vnull)
      else (Value.vnull, Value.vnull, Value.vnull, Value.vnull, Value.vnull)
    let contentV : Value :=
      if parsed.1 = Value.vstr "file" then
        match t.readFile path with
        | Except.ok s => Value.vstr s
        | Except.error _ => Value.vnull
      else Value.vnull
    return [("exists", Value.vbool true), ("type", parsed.1),
            ("content", contentV), ("mode", parsed.2.2.1),
            ("owner", parsed.2.2.2.1), ("group", parsed.2.2.2.2),
            ("size", parsed.2.1)]

/-- The desired content of a File resource: inline content first, then a
source file read, then a rendered template (both through local-filesystem
oracles that may raise), else null. -/
def fileContentV (cfg : FileCfg) (srcRead tmplRender : String → Except String String) :
    Except String Value :=
  match cfg.content with
  | some c => Except.ok (Value.vstr c)
  | Option.none =>
    match cfg.source with
    | some s => (srcRead s).map Value.vstr
    | Option.none =>
      match cfg.template with
      | some tp => (tmplRender tp).map Value.vstr
      | Option.none => Except.ok Value.vnull

/-- File.desired_state. -/
def fileDesired (cfg : FileCfg) (srcRead tmplRender : String → Except String String) :
    Except String AttrState :=
  if cfg.ensure = "absent" then
    Except.ok [("exists", Value.vbool false), ("type", Value.vnull)]
  else
    match fileContentV cfg srcRead tmplRender with
    | Except.error e => Except.error e
    | Except.ok contentV =>
      Except.ok
        ([("exists", Value.vbool true),
          ("type",
           if cfg.ensure = "file" ∨ cfg.ensure = "directory" then Value.vstr cfg.ensure
           else Value.vnull),
          ("content", contentV)] ++
         (match cfg.mode with
          | some m => [("mode", Value.vint m)]
          | Option.none => []) ++
         (match cfg.owner with
          | some o => [("owner", Value.vstr o)]
          | Option.none => []) ++
         (match cfg.group with
          | some g => [("group", Value.vstr g)]
          | Option.none => []))

/-- Resource.plan for a File resource. -/
def filePlan (t : TransportO) (cfg : FileCfg)
    (srcRead tmplRender : String → Except String String) : Except String Plan := do
  let actual ← fileCheck t cfg.path
  let desired ← fileDesired cfg srcRead tmplRender
  return planOf actual desired

/-! ## Package resource (resources/pkg.py) -/

structure PkgCfg where
  packages : List String
  version : Option String := Option.none
  ensure : String := "present"

/-- Package._get_package_manager / Repository._get_package_manager. -/
def getPackageManager (p : PlatformRec) : Except String String :=
  if p.distro = "ubuntu" ∨ p.distro = "debian" then Except.ok "apt"
  else if p.distro = "fedora" ∨ p.distro = "rhel" ∨ p.distro = "centos" then Except.ok "dnf"
  else if p.distro = "arch" then Except.ok "pacman"
  else if p.system = "Darwin" then Except.ok "brew"
  else Except.error ("Unsupported platform: " ++ p.distro)

/-- Package._check_package: installed version or none.  The pacman branch
indexes split()[1] and raises IndexError when the output has fewer than two
fields. -/
def checkPackage (t : TransportO) (pm pkg : String) : Except String (Option String) := do
  if pm = "apt" then
    let r ← t.runCommand ["dpkg-query", "-W", "-f=${Version}", pkg]
    return (if r.2 = 0 then some (pyStrip r.1) else Option.none)
  else if pm = "dnf" then
    let r ← t.runCommand ["rpm", "-q", "--queryformat", "%{VERSION}", pkg]
    return (if r.2 = 0 then some (pyStrip r.1) else Option.none)
  else if pm = "pacman" then
    let r ← t.runCommand ["pacman", "-Q", pkg]
    if r.2 = 0 then
      match (pySplitWs (pyStrip r.1)).drop 1 with
      | v :: _ => return (some v)
      | [] => Except.error "IndexError: list index out of range"
    else
      return Option.none
  else if pm = "brew" then
    let r ← t.runCommand ["brew", "list", "--versions", pkg]
    if r.2 = 0 then
      match (pySplitWs (pyStrip r.1)).drop 1 with
      | v :: _ => return (some v)
      | [] => return Option.none
    else
      return Option.none
  else
    return Option.none

/-- Package.check: per-package installed/version map plus the aggregate
exists flag (all installed). -/
def pkgCheck (t : TransportO) (plat : PlatformRec) (cfg : PkgCfg) :
    Except String AttrState := do
  let pm ← getPackageManager plat
  let entries ← cfg.packages.mapM fun pkg => do
    let v ← checkPackage t pm pkg
    return (pkg, Value.vobj
      [("installed", Value.vbool v.isSome),
       ("version", match v with
                   | some s => Value.vstr s
                   | Option.none => Value.vnull)])
  let allInstalled := entries.all fun e =>
    match e.2 with
    | Value.vobj kvs => pyGet kvs "installed" = Value.vbool true
    | _ => false
  return [("exists", Value.vbool allInstalled), ("packages", Value.vobj entries)]

/-- Package.desired_state. -/
def pkgDesired (cfg : PkgCfg) : AttrState :=
  [("exists", Value.vbool (cfg.ensure = "present" ∨ cfg.ensure = "latest")),
   ("version", match cfg.version with
               | some v => Value.vstr v
               | Option.none => Value.vnull)]

def pkgPlan (t : TransportO) (plat : PlatformRec) (cfg : PkgCfg) :
    Except String Plan := do
  let actual ← pkgCheck t plat cfg
  return planOf actual (pkgDesired cfg)

/-! ## Service resource (resources/service.py) -/

structure SvcCfg where
  name : String
  running : Option Bool := Option.none
  enabled : Option Bool := Option.none
  reloadOn : List String := []
  restartOn : List String := []

/-- Service._is_running: zero exit of the service-manager query; any
exception (and any other platform) reads as not running. -/
def svcIsRunning (t : TransportO) (plat : PlatformRec) (name : String) : Bool :=
  if plat.system = "Linux" then
    match t.runCommand ["systemctl", "is-active", name] with
    | Except.ok r => r.2 = 0
    | Except.error _ => false
  else if plat.system = "Darwin" then
    match t.runCommand ["launchctl", "list", "com." ++ name] with
    | Except.ok r => r.2 = 0
    | Except.error _ => false
  else false

/-- Service._is_enabled. -/
def svcIsEnabled (t : TransportO) (plat : PlatformRec) (name : String) : Bool :=
  if plat.system = "Linux" then
    match t.runCommand ["systemctl", "is-enabled", name] with
    | Except.ok r => r.2 = 0
    | Except.error _ => false
  else if plat.system = "Darwin" then true
  else false

/-- Service.check: the service is assumed to exist. -/
def svcCheck (t : TransportO) (plat : PlatformRec) (cfg : SvcCfg) : AttrState :=
  [("exists", Value.vbool true),
   ("running", Value.vbool (svcIsRunning t plat cfg.name)),
   ("enabled", Value.vbool (svcIsEnabled t plat cfg.name))]

/-- Service.desired_state: only the requested tri-state fields appear. -/
def svcDesired (cfg : SvcCfg) : AttrState :=
  [("exists", Value.vbool true)] ++
    (match cfg.running with
     | some b => [("running", Value.vbool b)]
     | Option.none => []) ++
    (match cfg.enabled with
     | some b => [("enabled", Value.vbool b)]
     | Option.none => [])

def svcPlan (t : TransportO) (plat : PlatformRec) (cfg : SvcCfg) : Plan :=
  planOf (svcCheck t plat cfg) (svcDesired cfg)

/-! ## Exec resource (resources/exec.py) -/

/-- Constructor arguments of Exec (security_level is the raw string
argument; unlessCmd / onlyIf stand for the unless / only_if keywords). -/
structure ExecCfg where
  name : String
  command : String
  creates : Option String := Option.none
  unlessCmd : Option String := Option.none
  onlyIf : Option String := Option.none
  cwd : Option String := Option.none
  environment : List (String × String) := []
  dryRun : Bool := false
  safeMode : Bool := true
  securityLevel : String := "strict"
  allowPipes : Bool := true
  allowRedirects : Bool := true

/-- Exec.check: evaluate the three idempotence guards.  cmdHash stands for
the sha256-based _hash_command digest, an external-library hash of
(command, cwd, environment); check and desired_state call it on the same
fields, so it is passed to both.  A guard shell command that raises is
caught and recorded as a warning; the creates existence probe is not
wrapped and propagates. -/
def execCheck (t : TransportO) (cfg : ExecCfg) (cmdHash : String) :
    Except String AttrState :=
  match (match cfg.creates with
         | some c => (t.fileExists c).map (fun e => !e)
         | Option.none => Except.ok true : Except String Bool) with
  | Except.error e => Except.error e
  | Except.ok sr1 =>
  let p2 : Bool × List String :=
    if sr1 && cfg.unlessCmd.isSome && !cfg.dryRun then
      match cfg.unlessCmd with
      | some u =>
        (match t.runShell u with
         | Except.ok r => ((r.2 != 0 : Bool), ([] : List String))
         | Except.error e => (sr1, ["unless guard failed: " ++ e]))
      | Option.none => (sr1, [])
    else (sr1, [])
  let p3 : Bool × List String :=
    if p2.1 && cfg.onlyIf.isSome && !cfg.dryRun then
      match cfg.onlyIf with
      | some u =>
        (match t.runShell u with
         | Except.ok r => ((r.2 == 0 : Bool), p2.2)
         | Except.error e => (p2.1, p2.2 ++ ["only_if guard failed: " ++ e]))
      | Option.none => (p2.1, p2.2)
    else (p2.1, p2.2)
  Except.ok [("exists", Value.vbool true),
             ("should_run", Value.vbool p3.1),
             ("command_hash", Value.vstr cmdHash),
             ("dry_run", Value.vbool cfg.dryRun),
             ("warnings", Value.vlist (p3.2.map Value.vstr))]

/-- Exec.desired_state: should_run is declared false so a passing guard set
surfaces as a change. -/
def execDesired (cfg : ExecCfg) (cmdHash : String) : AttrState :=
  [("exists", Value.vbool true),
   ("should_run", Value.vbool false),
   ("command_hash", Value.vstr cmdHash),
   ("dry_run", Value.vbool cfg.dryRun),
   ("warnings", Value.vlist [])]

def execPlan (t : TransportO) (cfg : ExecCfg) (cmdHash : String) :
    Except String Plan := do
  let actual ← execCheck t cfg cmdHash
  return planOf actual (execDesired cfg cmdHash)

/-! ## Repository resource (resources/repository.py) -/

structure RepoCfg where
  name : String
  action : String := "add"
  repo : Option String := Option.none
  keyUrl : Option String := Option.none
  keyId : Option String := Option.none
  keyServer : String := "keyserver.ubuntu.com"
  ppa : Option String := Option.none
  tap : Option String := Option.none
  filename : String
  ensure : String := "present"

/-- Repository._expand_repo_vars: substitute the release codename for the
lsb_release placeholder. -/
def expandRepoVars (t : TransportO) (repoLine : String) : Except String String :=
  if containsSub repoLine "$(lsb_release -cs)" then do
    let r ← t.runShell "lsb_release -cs"
    if r.2 = 0 then
      return pyReplace repoLine "$(lsb_release -cs)" (pyStrip r.1)
    else
      return repoLine
  else
    return repoLine

/-- Repository._check_update: cache-age probe with a one-hour freshness
threshold; int() on a non-numeric age output raises. -/
def repoCheckUpdate (t : TransportO) (pm : String) : Except String AttrState := do
  if pm = "apt" then
    let ce ← t.fileExists "/var/lib/apt/periodic/update-success-stamp"
    if ce then
      let r ← t.runShell
        "echo $(($(date +%s) - $(stat -c %Y /var/lib/apt/periodic/update-success-stamp)))"
      if r.2 = 0 then
        match parseDec (pyStrip r.1) with
        | some age =>
          return [("exists", Value.vbool true),
                  ("needs_update", Value.vbool (age > 3600)),
                  ("cache_age_seconds", Value.vint age)]
        | Option.none => Except.error "ValueError: invalid literal for int()"
      else
        return [("exists", Value.vbool true), ("needs_update", Value.vbool true)]
    else
      return [("exists", Value.vbool true), ("needs_update", Value.vbool true)]
  else if pm = "dnf" then
    return [("exists", Value.vbool true), ("needs_update", Value.vbool true)]
  else if pm = "pacman" then
    let ce ← t.fileExists "/var/lib/pacman/sync/core.db"
    if ce then
      let r ← t.runShell
        "echo $(($(date +%s) - $(stat -c %Y /var/lib/pacman/sync/core.db)))"
      if r.2 = 0 then
        match parseDec (pyStrip r.1) with
        | some age =>
          return [("exists", Value.vbool true),
                  ("needs_update", Value.vbool (age > 3600)),
                  ("cache_age_seconds", Value.vint age)]
        | Option.none => Except.error "ValueError: invalid literal for int()"
      else
        return [("exists", Value.vbool true), ("needs_update", Value.vbool true)]
    else
      return [("exists", Value.vbool true), ("needs_update", Value.vbool true)]
  else if pm = "brew" then
    return [("exists", Value.vbool true), ("needs_update", Value.vbool true)]
  else
    return [("exists", Value.vbool false)]

/-- Repository._check_upgrade: upgradable-package count per manager. -/
def repoCheckUpgrade (t : TransportO) (pm : String) : Except String AttrState := do
  if pm = "apt" then
    let r ← t.runShell "apt list --upgradable 2>/dev/null | grep -v 'Listing'"
    let upg : Nat :=
      if pyStrip r.1 ≠ "" then (pySplitStr (pyStrip r.1) '\n').length else 0
    return [("exists", Value.vbool true),
            ("needs_upgrade", Value.vbool (upg > 0)),
            ("upgradable_count", Value.vint upg)]
  else if pm = "dnf" then
    let r ← t.runShell "dnf check-update --quiet | wc -l"
    let upg : Nat :=
      if pyIsDigit (pyStrip r.1) then decVal (pyStrip r.1).toList else 0
    return [("exists", Value.vbool true),
            ("needs_upgrade", Value.vbool (upg > 0)),
            ("upgradable_count", Value.vint upg)]
  else if pm = "pacman" then
    let r ← t.runShell "pacman -Qu | wc -l"
    let upg : Nat :=
      if pyIsDigit (pyStrip r.1) then decVal (pyStrip r.1).toList else 0
    return [("exists", Value.vbool true),
            ("needs_upgrade", Value.vbool (upg > 0)),
            ("upgradable_count", Value.vint upg)]
  else if pm = "brew" then
    let r ← t.runShell "brew outdated | wc -l"
    let upg : Nat :=
      if pyIsDigit (pyStrip r.1) then decVal (pyStrip r.1).toList else 0
    return [("exists", Value.vbool true),
            ("needs_upgrade", Value.vbool (upg > 0)),
            ("upgradable_count", Value.vint upg)]
  else
    return [("exists", Value.vbool false)]

/-- Repository._check_repository: per-manager source presence.  Note the
pacman branch reports existence only. -/
def repoCheckRepository (t : TransportO) (cfg : RepoCfg) (pm : String) :
    Except String AttrState := do
  if pm = "apt" then
    match cfg.ppa with
    | some ppaName =>
      let base := pyReplace (pyReplace ppaName "ppa:" "") "/" "-"
      let sourceFile := "/etc/apt/sources.list.d/" ++ base ++ "-*.list"
      let r ← t.runShell ("ls " ++ sourceFile ++ " 2>/dev/null")
      return [("exists", Value.vbool (r.2 = 0)),
              ("source_file", if r.2 = 0 then Value.vstr (pyStrip r.1) else Value.vnull)]
    | Option.none =>
      let sf := "/etc/apt/sources.list.d/" ++ cfg.filename
      let ex ← t.fileExists sf
      match cfg.repo with
      | some rp =>
        if ex then
          let content ← t.readFile sf
          let expanded ← expandRepoVars t rp
          return [("exists", Value.vbool (containsSub content expanded)),
                  ("source_file", Value.vstr sf),
                  ("repo_line", Value.vstr expanded)]
        else
          return [("exists", Value.vbool ex), ("source_file", Value.vstr sf)]
      | Option.none =>
        return [("exists", Value.vbool ex), ("source_file", Value.vstr sf)]
  else if pm = "dnf" then
    let rf := "/etc/yum.repos.d/" ++ cfg.name ++ ".repo"
    let ex ← t.fileExists rf
    return [("exists", Value.vbool ex), ("repo_file", Value.vstr rf)]
  else if pm = "pacman" then
    let ce ← t.fileExists "/etc/pacman.conf"
    if ce then
      let content ← t.readFile "/etc/pacman.conf"
      return [("exists", Value.vbool (containsSub content ("[" ++ cfg.name ++ "]")))]
    else
      return [("exists", Value.vbool false)]
  else if pm = "brew" then
    match cfg.tap with
    | some tp =>
      let r ← t.runCommand ["brew", "tap"]
      return [("exists", Value.vbool ((pySplitStr r.1 '\n').contains tp)),
              ("tap", Value.vstr tp)]
    | Option.none =>
      return [("exists", Value.vbool false)]
  else
    return [("exists", Value.vbool false)]

/-- Repository.check. -/
def repoCheck (t : TransportO) (plat : PlatformRec) (cfg : RepoCfg) :
    Except String AttrState := do
  let pm ← getPackageManager plat
  if cfg.action = "update" then repoCheckUpdate t pm
  else if cfg.action = "upgrade" then repoCheckUpgrade t pm
  else if cfg.action = "add" then repoCheckRepository t cfg pm
  else return [("exists", Value.vbool false)]

/-- Repository.desired_state. -/
def repoDesired (cfg : RepoCfg) : AttrState :=
  if cfg.action = "update" then
    [("exists", Value.vbool true), ("needs_update", Value.vbool false)]
  else if cfg.action = "upgrade" then
    [("exists", Value.vbool true), ("needs_upgrade", Value.vbool false)]
  else if cfg.action = "add" then
    [("exists", Value.vbool (cfg.ensure = "present")),
     ("repo_line", match cfg.repo with
                   | some r => Value.vstr r
                   | Option.none => Value.vnull),
     ("has_key", Value.vbool (cfg.keyUrl.isSome ∨ cfg.keyId.isSome))]
  else
    [("exists", Value.vbool false)]

def repoPlan (t : TransportO) (plat : PlatformRec) (cfg : RepoCfg) :
    Except String Plan := do
  let actual ← repoCheck t plat cfg
  return planOf actual (repoDesired cfg)

/-! ## General facts about the shared plan algorithm -/

theorem exceptBind_ok {α β : Type} {x : Except String α} {f : α → Except String β}
    {b : β} (h : (x >>= f) = Except.ok b) : ∃ a, x = Except.ok a ∧ f a = Except.ok b := by
  cases x with
  | ok a => exact ⟨a, rfl, h⟩
  | error e => simp [Bind.bind, Except.bind] at h

theorem planOf_none_imp (a d : AttrState) :
    (planOf a d).action = Action.none → (planOf a d).changes = [] := by
  unfold planOf
  cases he1 : truthy ((List.lookup "exists" a).getD (Value.vbool false)) <;>
    cases he2 : truthy ((List.lookup "exists" d).getD (Value.vbool true)) <;>
    simp [he1, he2]
  rcases hdc : detectChanges a d with _ | ⟨c, cs⟩ <;> simp [hdc]

theorem planOf_empty_cases (a d : AttrState) (h : (planOf a d).changes = []) :
    (planOf a d).action = Action.none ∨
    ((planOf a d).action = Action.create ∧ createChanges d = []) ∨
    ((planOf a d).action = Action.delete ∧ deleteChanges a = []) := by
  unfold planOf at h ⊢
  cases he1 : truthy ((List.lookup "exists" a).getD (Value.vbool false)) <;>
    cases he2 : truthy ((List.lookup "exists" d).getD (Value.vbool true)) <;>
    rw [he1, he2] at h <;> simp [he1, he2] at h ⊢
  · exact h
  · exact h
  · rcases hdc : detectChanges a d with _ | ⟨c, cs⟩
    · simp [hdc]
    · rw [hdc] at h
      simp at h

theorem planOf_create_flags (a d : AttrState)
    (h : (planOf a d).action = Action.create) :
    truthy ((List.lookup "exists" a).getD (Value.vbool false)) = false ∧
    truthy ((List.lookup "exists" d).getD (Value.vbool true)) = true := by
  unfold planOf at h
  cases he1 : truthy ((List.lookup "exists" a).getD (Value.vbool false)) <;>
    cases he2 : truthy ((List.lookup "exists" d).getD (Value.vbool true)) <;>
    rw [he1, he2] at h <;> simp [he1, he2] at h ⊢
  rcases hdc : detectChanges a d with _ | ⟨c, cs⟩ <;> rw [hdc] at h <;> simp at h

theorem planOf_delete_flags (a d : AttrState)
    (h : (planOf a d).action = Action.delete) :
    truthy ((List.lookup "exists" a).getD (Value.vbool false)) = true ∧
    truthy ((List.lookup "exists" d).getD (Value.vbool true)) = false := by
  unfold planOf at h
  cases he1 : truthy ((List.lookup "exists" a).getD (Value.vbool false)) <;>
    cases he2 : truthy ((List.lookup "exists" d).getD (Value.vbool true)) <;>
    rw [he1, he2] at h <;> simp [he1, he2] at h ⊢
  rcases hdc : detectChanges a d with _ | ⟨c, cs⟩ <;> rw [hdc] at h <;> simp at h

theorem planOf_iff_of_ne (a d : AttrState)
    (hc : createChanges d ≠ []) (hd : deleteChanges a ≠ []) :
    ((planOf a d).action = Action.none ↔ (planOf a d).changes = []) := by
  unfold planOf
  cases he1 : truthy ((List.lookup "exists" a).getD (Value.vbool false)) <;>
    cases he2 : truthy ((List.lookup "exists" d).getD (Value.vbool true)) <;>
    simp [he1, he2, hc, hd]
  rcases hdc : detectChanges a d with _ | ⟨c, cs⟩ <;> simp [hdc]

theorem pureOk {α : Type} {x y : α} (h : (pure x : Except String α) = Except.ok y) :
    x = y := by
  simpa [pure, Except.pure] using h

theorem okInj {α : Type} {x y : α}
    (h : (Except.ok x : Except String α) = Except.ok y) : x = y := by
  injection h

theorem planOf_both_exist_iff (a d : AttrState)
    (ha : List.lookup "exists" a = some (Value.vbool true))
    (hd : List.lookup "exists" d = some (Value.vbool true)) :
    ((planOf a d).action = Action.none ↔ (planOf a d).changes = []) := by
  unfold planOf
  rw [ha, hd]
  simp [truthy]
  rcases hdc : detectChanges a d with _ | ⟨c, cs⟩ <;> simp [hdc]

/-! ## Per-type shape facts needed for the action/changes invariant -/

theorem fileCheck_delete_ne {t : TransportO} {p : String} {st : AttrState}
    (h : fileCheck t p = Except.ok st) : deleteChanges st ≠ [] := by
  unfold fileCheck at h
  rcases exceptBind_ok h with ⟨e, _, h⟩
  by_cases hb : e = false
  · rw [if_pos hb] at h
    have := pureOk h
    subst this
    simp [deleteChanges]
  · rw [if_neg hb] at h
    rcases exceptBind_ok h with ⟨r, _, h⟩
    have := pureOk h
    subst this
    simp [deleteChanges]

theorem fileDesired_create_ne {cfg : FileCfg}
    {sr tr : String → Except String String} {st : AttrState}
    (h : fileDesired cfg sr tr = Except.ok st) : createChanges st ≠ [] := by
  unfold fileDesired at h
  by_cases ha : cfg.ensure = "absent"
  · rw [if_pos ha] at h
    have := okInj h
    subst this
    simp [createChanges]
  · rw [if_neg ha] at h
    rcases hcv : fileContentV cfg sr tr with e | cv <;> rw [hcv] at h
    · simp at h
    · have := okInj h
      subst this
      simp only [createChanges, ne_eq, List.filterMap_eq_nil_iff, not_forall]
      refine ⟨("type",
        if cfg.ensure = "file" ∨ cfg.ensure = "directory" then Value.vstr cfg.ensure
        else Value.vnull),
        List.mem_cons_of_mem _ (List.mem_cons_self _ _), by simp⟩

theorem filePlan_iff {t : TransportO} {cfg : FileCfg}
    {sr tr : String → Except String String} {p : Plan}
    (h : filePlan t cfg sr tr = Except.ok p) :
    (p.action = Action.none ↔ p.changes = []) := by
  unfold filePlan at h
  rcases exceptBind_ok h with ⟨actual, hact, h⟩
  rcases exceptBind_ok h with ⟨desired, hdes, h⟩
  have := pureOk h
  subst this
  exact planOf_iff_of_ne _ _ (fileDesired_create_ne hdes) (fileCheck_delete_ne hact)

theorem pkgCheck_delete_ne {t : TransportO} {plat : PlatformRec} {cfg : PkgCfg}
    {st : AttrState} (h : pkgCheck t plat cfg = Except.ok st) :
    deleteChanges st ≠ [] := by
  unfold pkgCheck at h
  rcases exceptBind_ok h with ⟨pm, _, h⟩
  rcases exceptBind_ok h with ⟨entries, _, h⟩
  have := pureOk h
  subst this
  simp [deleteChanges]

theorem pkgPlan_iff {t : TransportO} {plat : PlatformRec} {cfg : PkgCfg} {p : Plan}
    (h : pkgPlan t plat cfg = Except.ok p) :
    (p.action = Action.none ↔ p.changes = []) := by
  unfold pkgPlan at h
  rcases exceptBind_ok h with ⟨actual, hact, h⟩
  have := pureOk h
  subst this
  refine planOf_iff_of_ne _ _ ?_ (pkgCheck_delete_ne hact)
  simp [pkgDesired, createChanges]

theorem svcPlan_iff (t : TransportO) (plat : PlatformRec) (cfg : SvcCfg) :
    ((svcPlan t plat cfg).action = Action.none ↔ (svcPlan t plat cfg).changes = []) := by
  unfold svcPlan
  exact planOf_both_exist_iff _ _ rfl rfl

theorem execCheck_exists {t : TransportO} {cfg : ExecCfg} {ch : String}
    {st : AttrState} (h : execCheck t cfg ch = Except.ok st) :
    List.lookup "exists" st = some (Value.vbool true) := by
  unfold execCheck at h
  generalize hg : (match cfg.creates with
         | some c => (t.fileExists c).map (fun e => !e)
         | Option.none => Except.ok true : Except String Bool) = x at h
  cases x with
  | error e => simp at h
  | ok sr1 =>
    have := okInj h
    subst this
    rfl

theorem execPlan_iff {t : TransportO} {cfg : ExecCfg} {ch : String} {p : Plan}
    (h : execPlan t cfg ch = Except.ok p) :
    (p.action = Action.none ↔ p.changes = []) := by
  unfold execPlan at h
  rcases exceptBind_ok h with ⟨actual, hact, h⟩
  have := pureOk h
  subst this
  exact planOf_both_exist_iff _ _ (execCheck_exists hact) rfl

theorem repoCheckUpdate_shape {t : TransportO} {pm : String} {st : AttrState}
    (h : repoCheckUpdate t pm = Except.ok st) :
    deleteChanges st ≠ [] ∨ List.lookup "exists" st = some (Value.vbool false) := by
  unfold repoCheckUpdate at h
  by_cases h1 : pm = "apt"
  · rw [if_pos h1] at h
    rcases exceptBind_ok h with ⟨ce, _, h⟩
    by_cases hce : ce = true
    · rw [if_pos hce] at h
      rcases exceptBind_ok h with ⟨r, _, h⟩
      by_cases hr : r.2 = 0
      · rw [if_pos hr] at h
        rcases hp : parseDec (pyStrip r.1) with _ | age <;> rw [hp] at h
        · simp at h
        · have := pureOk h; subst this; left; simp [deleteChanges]
      · rw [if_neg hr] at h
        have := pureOk h; subst this; left; simp [deleteChanges]
    · rw [if_neg hce] at h
      have := pureOk h; subst this; left; simp [deleteChanges]
  rw [if_neg h1] at h
  by_cases h2 : pm = "dnf"
  · rw [if_pos h2] at h
    have := pureOk h; subst this; left; simp [deleteChanges]
  rw [if_neg h2] at h
  by_cases h3 : pm = "pacman"
  · rw [if_pos h3] at h
    rcases exceptBind_ok h with ⟨ce, _, h⟩
    by_cases hce : ce = true
    · rw [if_pos hce] at h
      rcases exceptBind_ok h with ⟨r, _, h⟩
      by_cases hr : r.2 = 0
      · rw [if_pos hr] at h
        rcases hp : parseDec (pyStrip r.1) with _ | age <;> rw [hp] at h
        · simp at h
        · have := pureOk h; subst this; left; simp [deleteChanges]
      · rw [if_neg hr] at h
        have := pureOk h; subst this; left; simp [deleteChanges]
    · rw [if_neg hce] at h
      have := pureOk h; subst this; left; simp [deleteChanges]
  rw [if_neg h3] at h
  by_cases h4 : pm = "brew"
  · rw [if_pos h4] at h
    have := pureOk h; subst this; left; simp [deleteChanges]
  rw [if_neg h4] at h
  have := pureOk h; subst this; right; rfl

theorem repoCheckUpgrade_shape {t : TransportO} {pm : String} {st : AttrState}
    (h : repoCheckUpgrade t pm = Except.ok st) :
    deleteChanges st ≠ [] ∨ List.lookup "exists" st = some (Value.vbool false) := by
  unfold repoCheckUpgrade at h
  by_cases h1 : pm = "apt"
  · rw [if_pos h1] at h
    rcases exceptBind_ok h with ⟨r, _, h⟩
    have := pureOk h; subst this; left; simp [deleteChanges]
  rw [if_neg h1] at h
  by_cases h2 : pm = "dnf"
  · rw [if_pos h2] at h
    rcases exceptBind_ok h with ⟨r, _, h⟩
    have := pureOk h; subst this; left; simp [deleteChanges]
  rw [if_neg h2] at h
  by_cases h3 : pm = "pacman"
  · rw [if_pos h3] at h
    rcases exceptBind_ok h with ⟨r, _, h⟩
    have := pureOk h; subst this; left; simp [deleteChanges]
  rw [if_neg h3] at h
  by_cases h4 : pm = "brew"
  · rw [if_pos h4] at h
    rcases exceptBind_ok h with ⟨r, _, h⟩
    have := pureOk h; subst this; left; simp [deleteChanges]
  rw [if_neg h4] at h
  have := pureOk h; subst this; right; rfl

theorem repoCheckRepository_shape {t : TransportO} {cfg : RepoCfg} {pm : String}
    {st : AttrState} (h : repoCheckRepository t cfg pm = Except.ok st) :
    deleteChanges st ≠ [] ∨ List.lookup "exists" st = some (Value.vbool false) ∨
      pm = "pacman" := by
  unfold repoCheckRepository at h
  by_cases h1 : pm = "apt"
  · rw [if_pos h1] at h
    rcases hppa : cfg.ppa with _ | ppaName <;> rw [hppa] at h
    · rcases exceptBind_ok h with ⟨ex, _, h⟩
      rcases hrp : cfg.repo with _ | rp <;> rw [hrp] at h <;> dsimp only at h
      · have := pureOk h; subst this; left; simp [deleteChanges]
      · by_cases hex : ex = true
        · rw [if_pos hex] at h
          rcases exceptBind_ok h with ⟨content, _, h⟩
          rcases exceptBind_ok h with ⟨expanded, _, h⟩
          have := pureOk h; subst this; left; simp [deleteChanges]
        · rw [if_neg hex] at h
          have := pureOk h; subst this; left; simp [deleteChanges]
    · rcases exceptBind_ok h with ⟨r, _, h⟩
      have := pureOk h; subst this; left; simp [deleteChanges]
  rw [if_neg h1] at h
  by_cases h2 : pm = "dnf"
  · rw [if_pos h2] at h
    rcases exceptBind_ok h with ⟨ex, _, h⟩
    have := pureOk h; subst this; left; simp [deleteChanges]
  rw [if_neg h2] at h
  by_cases h3 : pm = "pacman"
  · exact Or.inr (Or.inr h3)
  rw [if_neg h3] at h
  by_cases h4 : pm = "brew"
  · rw [if_pos h4] at h
    rcases htap : cfg.tap with _ | tp <;> rw [htap] at h
    · have := pureOk h; subst this; right; left; rfl
    · rcases exceptBind_ok h with ⟨r, _, h⟩
      have := pureOk h; subst this; left; simp [deleteChanges]
  rw [if_neg h4] at h
  have := pureOk h; subst this; right; left; rfl

theorem repoPlan_shape {t : TransportO} {plat : PlatformRec} {cfg : RepoCfg} {p : Plan}
    (h : repoPlan t plat cfg = Except.ok p) :
    (p.action = Action.none → p.changes = []) ∧
    (p.changes = [] → p.action = Action.none ∨
      (p.action = Action.delete ∧ getPackageManager plat = Except.ok "pacman" ∧
        cfg.action = "add")) := by
  unfold repoPlan at h
  rcases exceptBind_ok h with ⟨actual, hact, h⟩
  have hp := pureOk h
  subst hp
  refine ⟨planOf_none_imp _ _, ?_⟩
  intro hemp
  rcases planOf_empty_cases _ _ hemp with hnone | ⟨hcr, hcc⟩ | ⟨hdl, hdc⟩
  · exact Or.inl hnone
  · exfalso
    by_cases ha1 : cfg.action = "update"
    · simp [repoDesired, ha1, createChanges] at hcc
    by_cases ha2 : cfg.action = "upgrade"
    · simp [repoDesired, ha1, ha2, createChanges] at hcc
    by_cases ha3 : cfg.action = "add"
    · simp [repoDesired, ha1, ha2, ha3, createChanges] at hcc
    have hfl := (planOf_create_flags _ _ hcr).2
    rw [show List.lookup "exists" (repoDesired cfg) = some (Value.vbool false) from by
      simp [repoDesired, ha1, ha2, ha3]] at hfl
    simp [truthy] at hfl
  · have hfl := (planOf_delete_flags _ _ hdl).1
    unfold repoCheck at hact
    rcases exceptBind_ok hact with ⟨pm, hpm, hact⟩
    by_cases ha1 : cfg.action = "update"
    · rw [if_pos ha1] at hact
      rcases repoCheckUpdate_shape hact with hne | hex
      · exact absurd hdc hne
      · rw [hex] at hfl; simp [truthy] at hfl
    rw [if_neg ha1] at hact
    by_cases ha2 : cfg.action = "upgrade"
    · rw [if_pos ha2] at hact
      rcases repoCheckUpgrade_shape hact with hne | hex
      · exact absurd hdc hne
      · rw [hex] at hfl; simp [truthy] at hfl
    rw [if_neg ha2] at hact
    by_cases ha3 : cfg.action = "add"
    · rw [if_pos ha3] at hact
      rcases repoCheckRepository_shape hact with hne | hex | hpac
      · exact absurd hdc hne
      · rw [hex] at hfl; simp [truthy] at hfl
      · subst hpac
        exact Or.inr ⟨hdl, hpm, ha3⟩
    rw [if_neg ha3] at hact
    have := pureOk hact
    subst this
    simp [truthy, List.lookup] at hfl

/-- C3 (amended): for File, Package, Service and Exec resources the plan's
action is none exactly when its change list is empty.  For Repository
resources, action none still implies an empty change list, and an empty
change list implies action none except in one case the code permits: a
delete plan of an add-action Repository on a pacman platform, whose check
reports existence only, carries an empty change list. -/
theorem c3_action_none_iff_no_changes :
    (∀ (t : TransportO) (cfg : FileCfg) (sr tr : String → Except String String)
       (p : Plan), filePlan t cfg sr tr = Except.ok p →
        (p.action = Action.none ↔ p.changes = [])) ∧
    (∀ (t : TransportO) (plat : PlatformRec) (cfg : PkgCfg) (p : Plan),
      pkgPlan t plat cfg = Except.ok p →
        (p.action = Action.none ↔ p.changes = [])) ∧
    (∀ (t : TransportO) (plat : PlatformRec) (cfg : SvcCfg),
      ((svcPlan t plat cfg).action = Action.none ↔ (svcPlan t plat cfg).changes = [])) ∧
    (∀ (t : TransportO) (cfg : ExecCfg) (ch : String) (p : Plan),
      execPlan t cfg ch = Except.ok p →
        (p.action = Action.none ↔ p.changes = [])) ∧
    (∀ (t : TransportO) (plat : PlatformRec) (cfg : RepoCfg) (p : Plan),
      repoPlan t plat cfg = Except.ok p →
        ((p.action = Action.none → p.changes = []) ∧
         (p.changes = [] → p.action = Action.none ∨
           (p.action = Action.delete ∧ getPackageManager plat = Except.ok "pacman" ∧
             cfg.action = "add")))) :=
  ⟨fun _ _ _ _ _ h => filePlan_iff h,
   fun _ _ _ _ h => pkgPlan_iff h,
   fun t plat cfg => svcPlan_iff t plat cfg,
   fun _ _ _ _ h => execPlan_iff h,
   fun _ _ _ _ h => repoPlan_shape h⟩

theorem c3_action_none_iff_no_changes_witness :
    ((Plan.mk Action.create
       [⟨"type", Value.vnull, Value.vstr "file"⟩,
        ⟨"content", Value.vnull, Value.vstr "hi\n"⟩,
        ⟨"mode", Value.vnull, Value.vint 420⟩]
       "Resource does not exist").action = Action.none ↔
     (Plan.mk Action.create
       [⟨"type", Value.vnull, Value.vstr "file"⟩,
        ⟨"content", Value.vnull, Value.vstr "hi\n"⟩,
        ⟨"mode", Value.vnull, Value.vint 420⟩]
       "Resource does not exist").changes = []) :=
  c3_action_none_iff_no_changes.1
    { fileExists := fun _ => Except.ok false,
      runShell := fun _ => Except.ok ("", 0),
      runCommand := fun _ => Except.ok ("", 0),
      readFile := fun _ => Except.error "FileNotFoundError" }
    { path := "/tmp/seed-a.txt", content := some "hi\n", mode := some 420 }
    (fun _ => Except.error "FileNotFoundError")
    (fun _ => Except.error "FileNotFoundError")
    _ rfl

/-- A pacman host whose pacman.conf already carries the [extra] section. -/
def tArchCx : TransportO :=
  { fileExists := fun _ => Except.ok true,
    runShell := fun _ => Except.ok ("", 0),
    runCommand := fun _ => Except.ok ("", 0),
    readFile := fun _ => Except.ok "[extra]\nServer = https://mirror.example/extra" }

def platArchCx : PlatformRec := ⟨"Linux", "arch", "", "x86_64"⟩

def cfgArchCx : RepoCfg :=
  { name := "extra", action := "add",
    repo := some "Server = https://mirror.example/extra",
    filename := "extra.list", ensure := "absent" }

/-- C3 counterexample: a Repository add resource with ensure absent on an
Arch platform whose pacman.conf contains the section plans a delete with an
empty change list, so action none and change-list emptiness are not
equivalent there. -/
theorem c3_counterexample :
    repoPlan tArchCx platArchCx cfgArchCx =
      Except.ok (Plan.mk Action.delete [] "Resource should not exist") ∧
    ¬((Plan.mk Action.delete [] "Resource should not exist").action = Action.none ↔
      (Plan.mk Action.delete [] "Resource should not exist").changes = []) := by
  constructor
  · rfl
  · intro hiff
    exact absurd (hiff.mpr rfl) (by simp)

/-! ## Transports: write_file (transport/local.py, transport/ssh.py)

The target filesystem is a set of directories plus a map from file path to
content; paths are absolute and normalised.  Path(p).write_bytes succeeds
only when the parent directory exists; mkdir -p creates a directory chain. -/

structure FS where
  dirs : List String
  files : List (String × String)
deriving Repr, DecidableEq

/-- Path(p).parent for absolute paths. -/
def parentDir (p : String) : String :=
  match p.toList.reverse.dropWhile (fun c => c ≠ '/') with
  | [] => "."
  | ['/'] => "/"
  | '/' :: rest => String.mk rest.reverse
  | _ => "."

def ancestorsFuel : Nat → String → List String
  | 0, d => [d]
  | n + 1, d => if d = "/" ∨ d = "." then [d] else d :: ancestorsFuel n (parentDir d)

/-- The directory and all its ancestors (what mkdir -p creates). -/
def ancestors (d : String) : List String := ancestorsFuel d.length d

/-- mkdir -p: add the directory chain. -/
def FS.mkdirP (fs : FS) (d : String) : FS :=
  { fs with dirs := fs.dirs ++ (ancestors d).filter (fun x => ¬ fs.dirs.contains x) }

/-- Path(path).write_bytes(content): overwrite-or-create, failing when the
parent directory is missing or the path is a directory. -/
def FS.writeBytes (fs : FS) (path content : String) : Except String FS :=
  if fs.dirs.contains path then
    Except.error ("IsADirectoryError: " ++ path)
  else if fs.dirs.contains (parentDir path) then
    Except.ok { fs with
      files := fs.files.filter (fun kv => kv.1 ≠ path) ++ [(path, content)] }
  else
    Except.error ("FileNotFoundError: " ++ path)

/-- LocalTransport.write_file is exactly Path(path).write_bytes(content):
no parent-directory creation. -/
def localWriteFile (fs : FS) (path content : String) : Except String FS :=
  FS.writeBytes fs path content

/-- SSHTransport.write_file.  Without sudo: stat the parent over SFTP, run
mkdir -p when it is missing, then write.  With sudo: stage the content to a
/tmp name derived from an md5 of the destination (tmpName stands for that
external digest), mkdir -p the parent under sudo, and mv into place. -/
def sshWriteFile (escalate : Bool) (tmpName : String) (fs : FS) (path content : String) :
    Except String FS :=
  if escalate then do
    let fs1 ← FS.writeBytes fs ("/tmp/cook-" ++ tmpName ++ ".tmp") content
    let fs2 := fs1.mkdirP (parentDir path)
    return { fs2 with
      files := fs2.files.filter
          (fun kv => kv.1 ≠ ("/tmp/cook-" ++ tmpName ++ ".tmp") ∧ kv.1 ≠ path) ++
        [(path, content)] }
  else
    let fs1 := if fs.dirs.contains (parentDir path) then fs else fs.mkdirP (parentDir path)
    FS.writeBytes fs1 path content

theorem ancestorsFuel_cons (n : Nat) (d : String) :
    ∃ tl, ancestorsFuel n d = d :: tl := by
  cases n with
  | zero => exact ⟨[], rfl⟩
  | succ n =>
    unfold ancestorsFuel
    by_cases hd : d = "/" ∨ d = "."
    · exact ⟨[], by rw [if_pos hd]⟩
    · exact ⟨ancestorsFuel n (parentDir d), by rw [if_neg hd]⟩

theorem mkdirP_mem (fs : FS) (d : String) :
    (fs.mkdirP d).dirs.contains d = true := by
  unfold FS.mkdirP
  by_cases hd : fs.dirs.contains d = true
  · simp at hd ⊢
    exact Or.inl hd
  · obtain ⟨tl, htl⟩ := ancestorsFuel_cons d.length d
    have hd2 : d ∉ fs.dirs := by simpa using hd
    simp only [ancestors, htl]
    simp [hd2]

theorem lookup_filter_append (l : List (String × String))
    (p : String × String → Bool) (path c : String)
    (hp : ∀ kv, p kv = true → kv.1 ≠ path) :
    List.lookup path (l.filter p ++ [(path, c)]) = some c := by
  induction l with
  | nil => simp [List.lookup]
  | cons kv tl ih =>
    by_cases hk : p kv = true
    · rw [List.filter_cons, if_pos hk, List.cons_append]
      have hne : kv.1 ≠ path := hp kv hk
      rcases kv with ⟨k, v⟩
      simp only [List.lookup]
      rw [show (path == k) = false from by
        simp only [beq_eq_false_iff_ne, ne_eq]
        exact fun h2 => hne h2.symm]
      exact ih
    · rw [List.filter_cons, if_neg hk]
      exact ih

theorem writeBytes_ok {fs fs' : FS} {path content : String}
    (h : FS.writeBytes fs path content = Except.ok fs') :
    fs'.dirs = fs.dirs ∧ fs'.dirs.contains (parentDir path) = true ∧
      List.lookup path fs'.files = some content := by
  unfold FS.writeBytes at h
  by_cases h1 : fs.dirs.contains path = true
  · rw [if_pos h1] at h
    simp at h
  · rw [if_neg h1] at h
    by_cases h2 : fs.dirs.contains (parentDir path) = true
    · rw [if_pos h2] at h
      have := okInj h
      subst this
      refine ⟨rfl, h2, ?_⟩
      exact lookup_filter_append fs.files _ path content
        (fun kv hkv => by simpa using hkv)
    · rw [if_neg h2] at h
      simp at h

/-- C7 (amended): the secure-shell variant creates missing parent
directories and creates or overwrites the file, both without privilege
escalation and with it (the staged write to /tmp permitting); the local
variant creates or overwrites only when the parent directory already
exists, and fails with FileNotFoundError — creating nothing — when a parent
is missing. -/
theorem c7_write_file_parents (fs : FS) (path content tmpName : String)
    (hnd : fs.dirs.contains path = false) :
    (∀ fs', sshWriteFile false tmpName fs path content = Except.ok fs' →
      fs'.dirs.contains (parentDir path) = true ∧
      List.lookup path fs'.files = some content) ∧
    (∀ fs', sshWriteFile true tmpName fs path content = Except.ok fs' →
      fs'.dirs.contains (parentDir path) = true ∧
      List.lookup path fs'.files = some content) ∧
    (fs.dirs.contains (parentDir path) = true →
      ∃ fs', localWriteFile fs path content = Except.ok fs' ∧
        List.lookup path fs'.files = some content) ∧
    (fs.dirs.contains (parentDir path) = false →
      localWriteFile fs path content = Except.error ("FileNotFoundError: " ++ path)) := by
  refine ⟨?_, ?_, ?_, ?_⟩
  · intro fs' h
    unfold sshWriteFile at h
    rw [if_neg (by simp)] at h
    by_cases hp : fs.dirs.contains (parentDir path) = true
    · rw [if_pos hp] at h
      have hres := writeBytes_ok h
      exact ⟨hres.2.1, hres.2.2⟩
    · rw [if_neg hp] at h
      have hres := writeBytes_ok h
      exact ⟨hres.2.1, hres.2.2⟩
  · intro fs' h
    unfold sshWriteFile at h
    rw [if_pos rfl] at h
    rcases exceptBind_ok h with ⟨fs1, _, h⟩
    have := pureOk h
    subst this
    constructor
    · show ((fs1.mkdirP (parentDir path)).dirs.contains (parentDir path)) = true
      exact mkdirP_mem fs1 (parentDir path)
    · exact lookup_filter_append _ _ path content
        (fun kv hkv => by
          simp only [Bool.and_eq_true, decide_eq_true_eq] at hkv
          exact hkv.2)
  · intro hp
    refine ⟨{ fs with files := fs.files.filter (fun kv => kv.1 ≠ path) ++ [(path, content)] }, ?_, ?_⟩
    · unfold localWriteFile FS.writeBytes
      rw [if_neg (by rw [hnd]; simp), if_pos hp]
    · exact lookup_filter_append fs.files _ path content
        (fun kv hkv => by simpa using hkv)
  · intro hp
    unfold localWriteFile FS.writeBytes
    rw [if_neg (by rw [hnd]; simp), if_neg (by rw [hp]; simp)]

theorem c7_write_file_parents_witness :
    ((⟨["/", "/a"], [("/a/b.txt", "hi")]⟩ : FS).dirs.contains
        (parentDir "/a/b.txt") = true ∧
      List.lookup "/a/b.txt" (⟨["/", "/a"], [("/a/b.txt", "hi")]⟩ : FS).files =
        some "hi") ∧
    localWriteFile ⟨["/"], []⟩ "/a/b.txt" "hi" =
      Except.error "FileNotFoundError: /a/b.txt" := by
  have h := c7_write_file_parents ⟨["/"], []⟩ "/a/b.txt" "hi" "d41d8cd9" rfl
  exact ⟨h.1 ⟨["/", "/a"], [("/a/b.txt", "hi")]⟩ (by rfl), h.2.2.2 rfl⟩

/-- C7 counterexample: on the local transport, writing to a path whose
parent directory does not exist fails instead of creating the parents, so
the claim does not hold for every transport variant. -/
theorem c7_counterexample :
    localWriteFile ⟨["/"], []⟩ "/etc/app/app.conf" "x" =
      Except.error "FileNotFoundError: /etc/app/app.conf" := rfl

/-! ## The transport slot of a freshly constructed resource
(transport/base.py NullTransport, core/resource.py Resource.__init__) -/

/-- What a resource's _transport attribute can hold: Python None (what
Resource.__init__ actually assigns), a NullTransport instance (what the
NullTransport docstring says is the default), or a real transport. -/
inductive TransportSlot where
  | pyNone
  | nullTransport
  | real (t : TransportO)

/-- The slot Resource.__init__ line 179 assigns: None, not NullTransport. -/
def resourceInitSlot : TransportSlot := TransportSlot.pyNone

/-- NullTransport._raise_error message for a method name (the methods pass
their name with trailing parentheses). -/
def nullTransportMsg (methodName : String) : String :=
  "Cannot call " ++ methodName ++ ": Transport not initialized. " ++
  "Resources must be added to an executor before use. " ++
  "Example: get_executor().add(YourResource(...))"

/-- Outcome of calling a transport method through the slot. -/
inductive CallOutcome where
  | attributeError (msg : String)
  | runtimeError (msg : String)
  | performed
deriving Repr, DecidableEq

/-- Calling slot.method(...): on None, Python raises AttributeError (a nil
dereference); on NullTransport, _raise_error's RuntimeError; on a real
transport the call proceeds. -/
def invokeTransport (s : TransportSlot) (method : String) : CallOutcome :=
  match s with
  | TransportSlot.pyNone =>
    CallOutcome.attributeError
      ("'NoneType' object has no attribute '" ++ method ++ "'")
  | TransportSlot.nullTransport =>
    CallOutcome.runtimeError (nullTransportMsg (method ++ "()"))
  | TransportSlot.real _ => CallOutcome.performed

/-- C10: a resource constructed outside an executor holds _transport = None,
so every transport-using operation dies with an AttributeError nil
dereference — not with the registration-contract RuntimeError that the
claim describes and that the (never wired in) NullTransport would give. -/
theorem c10_none_transport_nil_dereference :
    resourceInitSlot = TransportSlot.pyNone ∧
    invokeTransport resourceInitSlot "run_shell" =
      CallOutcome.attributeError "'NoneType' object has no attribute 'run_shell'" ∧
    invokeTransport resourceInitSlot "run_command" =
      CallOutcome.attributeError "'NoneType' object has no attribute 'run_command'" ∧
    invokeTransport resourceInitSlot "read_file" =
      CallOutcome.attributeError "'NoneType' object has no attribute 'read_file'" ∧
    invokeTransport resourceInitSlot "write_file" =
      CallOutcome.attributeError "'NoneType' object has no attribute 'write_file'" ∧
    invokeTransport resourceInitSlot "file_exists" =
      CallOutcome.attributeError "'NoneType' object has no attribute 'file_exists'" ∧
    invokeTransport resourceInitSlot "copy_file" =
      CallOutcome.attributeError "'NoneType' object has no attribute 'copy_file'" ∧
    invokeTransport TransportSlot.nullTransport "run_shell" =
      CallOutcome.runtimeError (nullTransportMsg "run_shell()") := by
  refine ⟨rfl, rfl, rfl, rfl, rfl, rfl, rfl, rfl⟩

/-! ## Exec security validation (resources/exec.py)

The metacharacter entries of DANGEROUS_PATTERNS are regex-escaped literals;
re.search of an escaped literal is substring containment, so they are
embedded as the literal strings they match.  The DANGEROUS_COMMANDS entries
are genuine regexes and are embedded in a small regex calculus matched by a
backtracking engine; re.IGNORECASE is realised by matching the lowercased
text against lowercase patterns.  Python's \s also covers \f and \v, which
Char.isWhitespace omits; no pattern here distinguishes them. -/

inductive Rx where
  | eps
  | lit (s : List Char)
  | cls (p : Char → Bool)
  | many (p : Char → Bool)
  | many1 (p : Char → Bool)
  | seq (a b : Rx)
  | alt (a b : Rx)
  | wb

def isWordChar (c : Char) : Bool := c.isAlpha || c.isDigit || c = '_'

/-- Word boundary \b between the previous character and the rest. -/
def atBoundary (prev : Option Char) (s : List Char) : Bool :=
  (match prev with
   | some c => isWordChar c
   | Option.none => false) !=
  (match s with
   | c :: _ => isWordChar c
   | [] => false)

def litMatch : List Char → Option Char → List Char →
    (Option Char → List Char → Bool) → Bool
  | [], prev, s, k => k prev s
  | c :: cs, _, s, k =>
    match s with
    | [] => false
    | d :: ds => c = d && litMatch cs (some d) ds k

def manyMatch (p : Char → Bool) : Option Char → List Char →
    (Option Char → List Char → Bool) → Bool
  | prev, s, k =>
    k prev s ||
    (match s with
     | [] => false
     | c :: cs => p c && manyMatch p (some c) cs k)

def mtc : Rx → Option Char → List Char → (Option Char → List Char → Bool) → Bool
  | .eps, prev, s, k => k prev s
  | .lit l, prev, s, k => litMatch l prev s k
  | .cls p, _, s, k =>
    (match s with
     | [] => false
     | c :: cs => p c && k (some c) cs)
  | .many p, prev, s, k => manyMatch p prev s k
  | .many1 p, _, s, k =>
    (match s with
     | [] => false
     | c :: cs => p c && manyMatch p (some c) cs k)
  | .seq a b, prev, s, k => mtc a prev s (fun p2 s2 => mtc b p2 s2 k)
  | .alt a b, prev, s, k => mtc a prev s k || mtc b prev s k
  | .wb, prev, s, k => atBoundary prev s && k prev s

/-- re.search: try a match at every start position. -/
def searchFrom (r : Rx) : Option Char → List Char → Bool
  | prev, s =>
    mtc r prev s (fun _ _ => true) ||
    (match s with
     | [] => false
     | c :: cs => searchFrom r (some c) cs)

def reSearch (r : Rx) (s : String) : Bool := searchFrom r Option.none s.toList

def wsC (c : Char) : Bool := c.isWhitespace

def dotC (c : Char) : Bool := c != '\n'

def rxLit (s : String) : Rx := Rx.lit s.toList

/-- The literal texts matched by the DANGEROUS_PATTERNS regex entries, in
source order (each entry is a regex-escaped literal). -/
def dangerousPatterns : List String :=
  [";", "&&", "||", "|", "$(", "`", "$\x7b", ">", "<", "\n", "\r"]

/-- DANGEROUS_COMMANDS: (source regex, embedded pattern), in source order. -/
def dangerousCommands : List (String × Rx) :=
  [("\\brm\\s+-rf\\s+/",
    Rx.seq Rx.wb (Rx.seq (rxLit "rm") (Rx.seq (Rx.many1 wsC)
      (Rx.seq (rxLit "-rf") (Rx.seq (Rx.many1 wsC) (rxLit "/")))))),
   ("\\bdd\\s+if=/dev/",
    Rx.seq Rx.wb (Rx.seq (rxLit "dd") (Rx.seq (Rx.many1 wsC) (rxLit "if=/dev/")))),
   ("\\bmkfs\\.",
    Rx.seq Rx.wb (rxLit "mkfs.")),
   ("\\b:\\(\\)\\\x7b\\s*:\\|:\\&\\s*\\\x7d;:",
    Rx.seq Rx.wb (Rx.seq (rxLit ":()\x7b") (Rx.seq (Rx.many wsC)
      (Rx.seq (rxLit ":|:&") (Rx.seq (Rx.many wsC) (rxLit "\x7d;:")))))),
   ("\\bchmod\\s+777",
    Rx.seq Rx.wb (Rx.seq (rxLit "chmod") (Rx.seq (Rx.many1 wsC) (rxLit "777")))),
   ("\\bchown\\s+.*root",
    Rx.seq Rx.wb (Rx.seq (rxLit "chown") (Rx.seq (Rx.many1 wsC)
      (Rx.seq (Rx.many dotC) (rxLit "root"))))),
   ("curl.*\\|\\s*(bash|sh)",
    Rx.seq (rxLit "curl") (Rx.seq (Rx.many dotC) (Rx.seq (rxLit "|")
      (Rx.seq (Rx.many wsC) (Rx.alt (rxLit "bash") (rxLit "sh")))))),
   ("wget.*\\|\\s*(bash|sh)",
    Rx.seq (rxLit "wget") (Rx.seq (Rx.many dotC) (Rx.seq (rxLit "|")
      (Rx.seq (Rx.many wsC) (Rx.alt (rxLit "bash") (rxLit "sh")))))),
   ("\\beval\\s",
    Rx.seq Rx.wb (Rx.seq (rxLit "eval") (Rx.cls wsC))),
   ("/dev/sd[a-z]",
    Rx.seq (rxLit "/dev/sd") (Rx.cls (fun c => 'a' ≤ c && c ≤ 'z')))]

/-- Exec._check_command_security (issue text carries the context and the
matched entry; the cmd[:50] truncation of the source message is not
reproduced). -/
def checkCommandSecurity (cfg : ExecCfg) (cmd ctx : String) : List String :=
  (dangerousPatterns.filterMap fun p =>
    if p = "|" ∧ cfg.allowPipes = true then Option.none
    else if (p = ">" ∨ p = "<") ∧ cfg.allowRedirects = true then Option.none
    else if containsSub cmd p then
      some (ctx ++ ": Contains dangerous pattern '" ++ p ++ "'")
    else Option.none) ++
  (dangerousCommands.filterMap fun pr =>
    if reSearch pr.2 (pyToLower cmd) then
      some (ctx ++ ": Contains dangerous command pattern matching '" ++ pr.1 ++ "'")
    else Option.none) ++
  (if containsSub cmd "$" ∧ ¬containsSub cmd "$\x7b" ∧ ¬containsSub cmd "$(" then
    [ctx ++ ": Contains shell variable reference - potential injection"]
  else [])

/-- Exec._check_path_security. -/
def checkPathSecurity (path ctx : String) : List String :=
  ([";", "&", "|", "$", "`", "\n", "\r"].filterMap fun c =>
    if containsSub path c then
      some (ctx ++ ": Path contains dangerous character '" ++ c ++ "': " ++ path)
    else Option.none) ++
  (if containsSub path ".." then
    [ctx ++ ": Path contains directory traversal (..): " ++ path]
  else []) ++
  (if containsSub path "\x00" then [ctx ++ ": Path contains null byte"] else [])

/-- The env-key identifier regex of _check_env_security,
a full match of [A-Za-z_][A-Za-z0-9_]*. -/
def validEnvKey (k : String) : Bool :=
  match k.toList with
  | [] => false
  | c :: cs => (c.isAlpha || c = '_') && cs.all (fun d => d.isAlphanum || d = '_')

/-- Exec._check_env_security. -/
def checkEnvSecurity (key value : String) : List String :=
  (if validEnvKey key then []
   else ["environment: Invalid variable name '" ++ key ++ "' (must be alphanumeric)"]) ++
  ([";", "&", "|", "$", "`", "\n", "\r"].filterMap fun c =>
    if containsSub value c then
      some ("environment: Variable '" ++ key ++ "' contains dangerous character '" ++ c ++ "'")
    else Option.none)

/-- The effective security level: unknown strings become strict, and
safe_mode forces strict. -/
def effectiveSecurityLevel (cfg : ExecCfg) : String :=
  let lvl :=
    if pyToLower cfg.securityLevel = "none" ∨ pyToLower cfg.securityLevel = "warn" ∨
        pyToLower cfg.securityLevel = "strict" then
      pyToLower cfg.securityLevel
    else "strict"
  if cfg.safeMode then "strict" else lvl

/-- All issues collected by Exec._validate_security, in source order. -/
def collectIssues (cfg : ExecCfg) : List String :=
  checkCommandSecurity cfg cfg.command "command" ++
  (match cfg.unlessCmd with
   | some u => checkCommandSecurity cfg u "unless"
   | Option.none => []) ++
  (match cfg.onlyIf with
   | some u => checkCommandSecurity cfg u "only_if"
   | Option.none => []) ++
  (match cfg.cwd with
   | some c => checkPathSecurity c "cwd"
   | Option.none => []) ++
  (cfg.environment.flatMap fun kv => checkEnvSecurity kv.1 kv.2) ++
  (match cfg.creates with
   | some c => checkPathSecurity c "creates"
   | Option.none => [])

def securityViolationMsg (cfg : ExecCfg) (issues : List String) : String :=
  "SecurityViolation: Exec resource '" ++ cfg.name ++ "' has security concerns: " ++
    String.intercalate "; " issues

/-- Exec._validate_security: none is silent, warn logs, strict raises when
any issue was found. -/
def execValidateSecurity (cfg : ExecCfg) : Option String :=
  if effectiveSecurityLevel cfg = "none" then Option.none
  else if collectIssues cfg = [] then Option.none
  else if effectiveSecurityLevel cfg = "strict" then
    some (securityViolationMsg cfg (collectIssues cfg))
  else Option.none

/-- Exec.__init__ as seen by the executor: validation runs first; only when
it passes does the resource self-register.  The second component is the
exception raised, if any; the first is the executor afterwards. -/
def execInitSt (cfg : ExecCfg) (ex : ExecutorSt) : ExecutorSt × Option String :=
  match execValidateSecurity cfg with
  | some msg => (ex, some msg)
  | Option.none =>
    match ex.add { id := "exec:" ++ cfg.name } with
    | Except.ok ex2 => (ex2, Option.none)
    | Except.error e => (ex, some ("ValueError: " ++ e))

theorem filterMap_ne_nil_of_mem {α β : Type} {l : List α} {f : α → Option β}
    {x : α} (hx : x ∈ l) {y : β} (hfx : f x = some y) : l.filterMap f ≠ [] := by
  intro h
  have hy : y ∈ l.filterMap f := List.mem_filterMap.mpr ⟨x, hx, hfx⟩
  rw [h] at hy
  simp at hy

theorem append_ne_nil_left {α : Type} {a b : List α} (h : a ≠ []) : a ++ b ≠ [] := by
  intro hab
  exact h (List.append_eq_nil.mp hab).1

theorem append_ne_nil_right {α : Type} {a b : List α} (h : b ≠ []) : a ++ b ≠ [] := by
  intro hab
  exact h (List.append_eq_nil.mp hab).2

theorem checkCommandSecurity_ne_nil {cfg : ExecCfg} {text : String} (ctx : String)
    (hmatch :
      (∃ p ∈ dangerousPatterns,
        ¬(p = "|" ∧ cfg.allowPipes = true) ∧
        ¬((p = ">" ∨ p = "<") ∧ cfg.allowRedirects = true) ∧
        containsSub text p = true) ∨
      (∃ pr ∈ dangerousCommands, reSearch pr.2 (pyToLower text) = true)) :
    checkCommandSecurity cfg text ctx ≠ [] := by
  unfold checkCommandSecurity
  rcases hmatch with ⟨p, hp, hsk1, hsk2, hcont⟩ | ⟨pr, hpr, hre⟩
  · refine append_ne_nil_left (append_ne_nil_left ?_)
    refine @filterMap_ne_nil_of_mem String String dangerousPatterns _ p hp
      (ctx ++ ": Contains dangerous pattern '" ++ p ++ "'") ?_
    dsimp only
    rw [if_neg hsk1, if_neg hsk2, if_pos hcont]
  · refine append_ne_nil_left (append_ne_nil_right ?_)
    refine @filterMap_ne_nil_of_mem (String × Rx) String dangerousCommands _ pr hpr
      (ctx ++ ": Contains dangerous command pattern matching '" ++ pr.1 ++ "'") ?_
    dsimp only
    rw [if_pos hre]

/-- C6 (amended): when the effective security level is strict (which
safe_mode=True forces) and the command, unless or only_if text matches a
dangerous-metacharacter entry that is not conditionally permitted (the pipe
entry is skipped under allow_pipes and the redirect entries under
allow_redirects, both of which default to True), or matches any
dangerous-command pattern, the constructor raises a SecurityViolation
before registering, leaving the executor unchanged. -/
theorem c6_strict_match_raises_before_registration
    (cfg : ExecCfg) (ex : ExecutorSt) (text : String)
    (hlvl : effectiveSecurityLevel cfg = "strict")
    (htext : text = cfg.command ∨ cfg.unlessCmd = some text ∨ cfg.onlyIf = some text)
    (hmatch :
      (∃ p ∈ dangerousPatterns,
        ¬(p = "|" ∧ cfg.allowPipes = true) ∧
        ¬((p = ">" ∨ p = "<") ∧ cfg.allowRedirects = true) ∧
        containsSub text p = true) ∨
      (∃ pr ∈ dangerousCommands, reSearch pr.2 (pyToLower text) = true)) :
    (execInitSt cfg ex).1 = ex ∧
    (execInitSt cfg ex).2 = some (securityViolationMsg cfg (collectIssues cfg)) := by
  have hI : collectIssues cfg ≠ [] := by
    unfold collectIssues
    rcases htext with hcmd | hunl | honl
    · subst hcmd
      exact append_ne_nil_left (append_ne_nil_left (append_ne_nil_left
        (append_ne_nil_left (append_ne_nil_left
          (checkCommandSecurity_ne_nil "command" hmatch)))))
    · rw [hunl]
      refine append_ne_nil_left (append_ne_nil_left (append_ne_nil_left
        (append_ne_nil_left (append_ne_nil_right
          (checkCommandSecurity_ne_nil "unless" hmatch)))))
    · rw [honl]
      refine append_ne_nil_left (append_ne_nil_left (append_ne_nil_left
        (append_ne_nil_right (checkCommandSecurity_ne_nil "only_if" hmatch))))
  have hv : execValidateSecurity cfg =
      some (securityViolationMsg cfg (collectIssues cfg)) := by
    unfold execValidateSecurity
    rw [hlvl]
    rw [if_neg (by decide), if_neg hI, if_pos rfl]
  unfold execInitSt
  rw [hv]
  exact ⟨rfl, rfl⟩

def cfgExecSeedD : ExecCfg := { name := "x", command := "echo a; rm -rf /" }

theorem c6_strict_match_raises_before_registration_witness :
    (execInitSt cfgExecSeedD ExecutorSt.empty).1 = ExecutorSt.empty ∧
    (execInitSt cfgExecSeedD ExecutorSt.empty).2 =
      some (securityViolationMsg cfgExecSeedD (collectIssues cfgExecSeedD)) :=
  c6_strict_match_raises_before_registration cfgExecSeedD ExecutorSt.empty
    "echo a; rm -rf /" rfl (Or.inl rfl)
    (Or.inl ⟨";", by decide, by decide, by decide, by decide⟩)

def cfgExecPipe : ExecCfg := { name := "x", command := "cat a | grep b" }

/-- C6 counterexample: with the default allow_pipes=True, a strict-mode
command matching the pipe entry of the dangerous-metacharacter list does
not raise; the resource registers and the executor grows. -/
theorem c6_counterexample :
    ("|" ∈ dangerousPatterns) ∧
    containsSub "cat a | grep b" "|" = true ∧
    effectiveSecurityLevel cfgExecPipe = "strict" ∧
    (execInitSt cfgExecPipe ExecutorSt.empty).2 = Option.none ∧
    (execInitSt cfgExecPipe ExecutorSt.empty).1.resources.length = 1 := by
  refine ⟨by decide, by decide, rfl, by decide, by decide⟩

/-! ## Persisted resource state and the drift detector
(state/store.py, monitor/drift.py)

The store is modelled at the level of the deserialised rows: a list of
ResourceState records in the most-recent-first order list_resources
returns.  The fresh check of a re-instantiated minimal resource is an
oracle keyed by resource type and name. -/

/-- datetime.datetime as the store uses it (naive timestamps). -/
structure PyDateTime where
  year : Nat
  month : Nat
  day : Nat
  hour : Nat
  minute : Nat
  second : Nat
  microsecond : Nat
deriving Repr, DecidableEq

/-- ResourceState dataclass of state/store.py. -/
structure RState where
  id : String
  type : String
  desiredState : AttrState
  actualState : AttrState
  appliedAt : PyDateTime
  appliedBy : String
  hostname : String
  configFile : String
  status : String
deriving DecidableEq

/-- Store.get_resource on the deserialised view: first row with the id. -/
def lookupState : List RState → String → Option RState
  | [], _ => Option.none
  | st :: rest, rid => if st.id = rid then some st else lookupState rest rid

/-- Store.save_resource (INSERT OR REPLACE keyed by id) on the deserialised
view: replace the row in place, else append. -/
def upsertState : List RState → RState → List RState
  | [], st => [st]
  | r :: rest, st => if r.id = st.id then st :: rest else r :: upsertState rest st

/-- DriftDetector._compare_states: walk the stored attributes in order,
skip exists, skip values null on both sides, record
(field, expected, actual) where they differ; drifted iff any did. -/
def compareDiffs (stored current : AttrState) : List (String × Value × Value) :=
  stored.filterMap fun kv =>
    if kv.1 = "exists" then Option.none
    else if kv.2 = Value.vnull ∧ pyGet current kv.1 = Value.vnull then Option.none
    else if kv.2 ≠ pyGet current kv.1 then some (kv.1, kv.2, pyGet current kv.1)
    else Option.none

/-- DriftDetector._load_resource: re-instantiate a minimal resource of the
stored type with only the name (the constructor self-registers with the
global executor and any exception — including a duplicate-id ValueError —
yields None); exec and unknown types load nothing. -/
def loadResource (ex : ExecutorSt) (st : RState) : Option (String × String) × ExecutorSt :=
  if st.type = "file" then
    let name := pyReplace st.id "file:" ""
    match ex.add { id := "file:" ++ name } with
    | Except.ok ex2 => (some ("file", name), ex2)
    | Except.error _ => (Option.none, ex)
  else if st.type = "pkg" then
    let name := pyReplace st.id "pkg:" ""
    match ex.add { id := "pkg:" ++ name } with
    | Except.ok ex2 => (some ("pkg", name), ex2)
    | Except.error _ => (Option.none, ex)
  else if st.type = "svc" then
    let name := pyReplace st.id "svc:" ""
    match ex.add { id := "svc:" ++ name } with
    | Except.ok ex2 => (some ("svc", name), ex2)
    | Except.error _ => (Option.none, ex)
  else
    (Option.none, ex)

/-- DriftResult of monitor/drift.py (checked_at wall-clock not modelled). -/
structure DriftRes where
  resourceId : String
  drifted : Bool
  differences : List (String × Value × Value)
deriving Repr, DecidableEq

/-- DriftDetector.check_resource: fetch the stored row, re-instantiate,
check fresh state, diff; flip the stored status to drift when anything
differs.  Returns the optional result plus the store and executor after. -/
def driftCheckResource (fresh : String → String → AttrState) (store : List RState)
    (ex : ExecutorSt) (rid : String) :
    Option DriftRes × List RState × ExecutorSt :=
  match lookupState store rid with
  | Option.none => (Option.none, store, ex)
  | some st =>
    match loadResource ex st with
    | (Option.none, ex2) => (Option.none, store, ex2)
    | (some res, ex2) =>
      let current := fresh res.1 res.2
      let diffs := compareDiffs st.actualState current
      let drifted := !diffs.isEmpty
      let store2 :=
        if drifted then upsertState store { st with status := "drift" } else store
      (some ⟨rid, drifted, diffs⟩, store2, ex2)

/-- DriftDetector.check_all: snapshot the stored ids, check each, keep the
non-None results. -/
def driftLoop (fresh : String → String → AttrState) :
    List String → List RState → ExecutorSt →
    List DriftRes × List RState × ExecutorSt
  | [], store, ex => ([], store, ex)
  | rid :: rest, store, ex =>
    match driftCheckResource fresh store ex rid with
    | (Option.none, store2, ex2) => driftLoop fresh rest store2 ex2
    | (some r, store2, ex2) =>
      let acc := driftLoop fresh rest store2 ex2
      (r :: acc.1, acc.2.1, acc.2.2)

def driftCheckAll (fresh : String → String → AttrState) (store : List RState)
    (ex : ExecutorSt) : List DriftRes × List RState × ExecutorSt :=
  driftLoop fresh (store.map (fun st => st.id)) store ex

/-- The difference set the way the spec phrases it: every non-exists stored
field whose value differs from the fresh reading (absent keys read as null,
so null on both sides is equal). -/
def diffsSpec (stored current : AttrState) : List (String × Value × Value) :=
  stored.filterMap fun kv =>
    if kv.1 = "exists" then Option.none
    else if kv.2 = pyGet current kv.1 then Option.none
    else some (kv.1, kv.2, pyGet current kv.1)

theorem compareDiffs_eq_diffsSpec (stored current : AttrState) :
    compareDiffs stored current = diffsSpec stored current := by
  unfold compareDiffs diffsSpec
  induction stored with
  | nil => rfl
  | cons kv rest ih =>
    rw [List.filterMap_cons, List.filterMap_cons, ih]
    by_cases hk : kv.1 = "exists"
    · simp [hk]
    · by_cases heq : kv.2 = pyGet current kv.1
      · by_cases hnull : kv.2 = Value.vnull ∧ pyGet current kv.1 = Value.vnull
        · simp [hk, hnull, heq]
        · simp [hk, hnull, heq]
      · have hnull : ¬(kv.2 = Value.vnull ∧ pyGet current kv.1 = Value.vnull) := by
          intro h
          exact heq (h.1.trans h.2.symm)
        simp [hk, hnull, heq]

/-- C8 (amended): for a stored resource whose type loads (file, pkg, svc —
exec and unknown types are skipped with no result and no status change),
check_resource reports exactly the non-exists stored fields that differ
from the fresh check of the minimal re-instantiated resource (null on both
sides equal), and the stored row's status flips to drift exactly when at
least one field differs. -/
theorem c8_drift_reports_exact_diffs (fresh : String → String → AttrState)
    (store : List RState) (ex : ExecutorSt) (rid : String) (st : RState)
    (hfind : lookupState store rid = some st) :
    (∀ res ex2, loadResource ex st = (some res, ex2) →
      (driftCheckResource fresh store ex rid).1 =
        some ⟨rid, !(diffsSpec st.actualState (fresh res.1 res.2)).isEmpty,
              diffsSpec st.actualState (fresh res.1 res.2)⟩ ∧
      (diffsSpec st.actualState (fresh res.1 res.2) ≠ [] →
        (driftCheckResource fresh store ex rid).2.1 =
          upsertState store { st with status := "drift" }) ∧
      (diffsSpec st.actualState (fresh res.1 res.2) = [] →
        (driftCheckResource fresh store ex rid).2.1 = store)) ∧
    (st.type = "exec" →
      (driftCheckResource fresh store ex rid).1 = Option.none ∧
      (driftCheckResource fresh store ex rid).2.1 = store) := by
  constructor
  · intro res ex2 hload
    unfold driftCheckResource
    rw [hfind]
    dsimp only
    rw [hload]
    dsimp only
    rw [compareDiffs_eq_diffsSpec]
    refine ⟨rfl, ?_, ?_⟩
    · intro hne
      rw [if_pos (by
        rcases hd : diffsSpec st.actualState (fresh res.1 res.2) with _ | ⟨c, cs⟩
        · exact absurd hd hne
        · simp [hd])]
    · intro hemp
      rw [hemp]
      simp
  · intro hexec
    have hload : loadResource ex st = (Option.none, ex) := by
      unfold loadResource
      rw [hexec]
      rfl
    unfold driftCheckResource
    rw [hfind]
    dsimp only
    rw [hload]
    exact ⟨rfl, rfl⟩

def stSeedF : RState :=
  { id := "file:/tmp/seed-f.txt", type := "file",
    desiredState := [("exists", Value.vbool true), ("content", Value.vstr "one")],
    actualState := [("exists", Value.vbool true), ("content", Value.vstr "one")],
    appliedAt := ⟨2026, 10, 12, 0, 0, 0, 0⟩,
    appliedBy := "root", hostname := "host", configFile := "seed.py",
    status := "success" }

def freshSeedF : String → String → AttrState := fun ty _ =>
  if ty = "file" then [("exists", Value.vbool true), ("content", Value.vstr "two")]
  else []

theorem c8_drift_reports_exact_diffs_witness :
    (driftCheckResource freshSeedF [stSeedF] ExecutorSt.empty "file:/tmp/seed-f.txt").1 =
      some ⟨"file:/tmp/seed-f.txt", true,
            [("content", Value.vstr "one", Value.vstr "two")]⟩ ∧
    (driftCheckResource freshSeedF [stSeedF] ExecutorSt.empty "file:/tmp/seed-f.txt").2.1 =
      [{ stSeedF with status := "drift" }] := by
  have h := (c8_drift_reports_exact_diffs freshSeedF [stSeedF] ExecutorSt.empty
      "file:/tmp/seed-f.txt" stSeedF rfl).1 ("file", "/tmp/seed-f.txt") _ rfl
  exact ⟨h.1.trans (by rfl), (h.2.1 (by decide)).trans (by rfl)⟩

def stExecCx : RState :=
  { id := "exec:setup-db", type := "exec",
    desiredState := [("exists", Value.vbool true), ("should_run", Value.vbool false)],
    actualState := [("exists", Value.vbool true), ("should_run", Value.vbool true)],
    appliedAt := ⟨2026, 10, 12, 0, 0, 0, 0⟩,
    appliedBy := "root", hostname := "host", configFile := "seed.py",
    status := "success" }

/-- C8 counterexample: a stored resource of type exec yields no drift
result at all from check_all (the loader skips it), and its stored status
never changes — the claim's universal per-stored-resource promise fails. -/
theorem c8_counterexample :
    (driftCheckAll (fun _ _ => []) [stExecCx] ExecutorSt.empty).1 = [] ∧
    (driftCheckAll (fun _ _ => []) [stExecCx] ExecutorSt.empty).2.1 = [stExecCx] := by
  constructor <;> rfl

/-! ## The persisted textual representation (state/store.py)

save_resource serialises the two state dicts with json.dumps (default
separators, ensure_ascii) and the timestamp with datetime.isoformat;
get_resource runs json.loads and datetime.fromisoformat over the row.  The
serialiser and the deserialiser are modelled below at character level,
faithful to the documented behaviour of those library calls on the values
the engine stores (null / bool / int / str / list / str-keyed dict). -/

def isDigitChar (c : Char) : Bool := 48 ≤ c.toNat && c.toNat ≤ 57

def hexDig (n : Nat) : Char :=
  if n < 10 then Char.ofNat ('0'.toNat + n) else Char.ofNat ('a'.toNat + (n - 10))

def hexVal (c : Char) : Option Nat :=
  if 48 ≤ c.toNat ∧ c.toNat ≤ 57 then some (c.toNat - 48)
  else if 97 ≤ c.toNat ∧ c.toNat ≤ 102 then some (c.toNat - 87)
  else if 65 ≤ c.toNat ∧ c.toNat ≤ 70 then some (c.toNat - 55)
  else Option.none

def hex4 (n : Nat) : List Char :=
  [hexDig (n / 4096 % 16), hexDig (n / 256 % 16), hexDig (n / 16 % 16), hexDig (n % 16)]

/-- Decimal digits of n, most significant first. -/
def natDigits : Nat → Nat → List Char
  | 0, n => [Char.ofNat ('0'.toNat + n % 10)]
  | f + 1, n =>
    if n < 10 then [Char.ofNat ('0'.toNat + n)]
    else natDigits f (n / 10) ++ [Char.ofNat ('0'.toNat + n % 10)]

def renderNat (n : Nat) : List Char := natDigits n n

def renderInt (i : Int) : List Char :=
  if i < 0 then '-' :: renderNat (-i).toNat else renderNat i.toNat

/-- One character of a JSON string under json.dumps defaults (ensure_ascii:
named escapes, \u00xx for other controls, \uxxxx above ASCII, surrogate
pairs beyond the basic plane). -/
def escChar (c : Char) : List Char :=
  if c = '"' then ['\\', '"']
  else if c = '\\' then ['\\', '\\']
  else if c = '\n' then ['\\', 'n']
  else if c = '\r' then ['\\', 'r']
  else if c = '\t' then ['\\', 't']
  else if c.toNat = 8 then ['\\', 'b']
  else if c.toNat = 12 then ['\\', 'f']
  else if c.toNat < 32 then '\\' :: 'u' :: hex4 c.toNat
  else if c.toNat < 127 then [c]
  else if c.toNat ≤ 65535 then '\\' :: 'u' :: hex4 c.toNat
  else
    ('\\' :: 'u' :: hex4 (55296 + (c.toNat - 65536) / 1024)) ++
    ('\\' :: 'u' :: hex4 (56320 + (c.toNat - 65536) % 1024))

def escBody : List Char → List Char
  | [] => []
  | c :: cs => escChar c ++ escBody cs

def escString (s : String) : List Char := '"' :: escBody s.toList ++ ['"']

mutual

/-- json.dumps with the default separators. -/
def renderV : Value → List Char
  | .vnull => ['n', 'u', 'l', 'l']
  | .vbool true => ['t', 'r', 'u', 'e']
  | .vbool false => ['f', 'a', 'l', 's', 'e']
  | .vint i => renderInt i
  | .vstr s => escString s
  | .vlist xs => '[' :: (renderItems xs ++ [']'])
  | .vobj kvs => '{' :: (renderPairs kvs ++ ['}'])

def renderItems : List Value → List Char
  | [] => []
  | [x] => renderV x
  | x :: y :: xs => renderV x ++ ',' :: ' ' :: renderItems (y :: xs)

def renderPairs : List (String × Value) → List Char
  | [] => []
  | [kv] => escString kv.1 ++ ':' :: ' ' :: renderV kv.2
  | kv :: kv2 :: kvs =>
    escString kv.1 ++ ':' :: ' ' :: renderV kv.2 ++ ',' :: ' ' :: renderPairs (kv2 :: kvs)

end

def isJsonWs (c : Char) : Bool := c = ' ' || c = '\t' || c = '\n' || c = '\r'

def skipWs (l : List Char) : List Char := l.dropWhile isJsonWs

def spanDigits (l : List Char) : List Char × List Char :=
  (l.takeWhile isDigitChar, l.dropWhile isDigitChar)

def parseHex4 : List Char → Option (Nat × List Char)
  | a :: b :: c :: d :: rest =>
    match hexVal a, hexVal b, hexVal c, hexVal d with
    | some x, some y, some z, some w => some (x * 4096 + y * 256 + z * 16 + w, rest)
    | _, _, _, _ => Option.none
  | _ => Option.none

/-- The body of a JSON string after the opening quote: returns the decoded
characters and the input after the closing quote.  Escaped surrogate pairs
are recombined; lone escaped surrogates (which the encoder never emits) are
rejected, as are raw control characters. -/
def parseStrBody : Nat → List Char → Option (List Char × List Char)
  | 0, _ => Option.none
  | _ + 1, [] => Option.none
  | f + 1, c :: rest =>
    if c = '"' then some ([], rest)
    else if c = '\\' then
      match rest with
      | [] => Option.none
      | e :: rest2 =>
        if e = '"' then
          match parseStrBody f rest2 with
          | some (cs, r) => some ('"' :: cs, r)
          | Option.none => Option.none
        else if e = '\\' then
          match parseStrBody f rest2 with
          | some (cs, r) => some ('\\' :: cs, r)
          | Option.none => Option.none
        else if e = '/' then
          match parseStrBody f rest2 with
          | some (cs, r) => some ('/' :: cs, r)
          | Option.none => Option.none
        else if e = 'n' then
          match parseStrBody f rest2 with
          | some (cs, r) => some ('\n' :: cs, r)
          | Option.none => Option.none
        else if e = 'r' then
          match parseStrBody f rest2 with
          | some (cs, r) => some ('\r' :: cs, r)
          | Option.none => Option.none
        else if e = 't' then
          match parseStrBody f rest2 with
          | some (cs, r) => some ('\t' :: cs, r)
          | Option.none => Option.none
        else if e = 'b' then
          match parseStrBody f rest2 with
          | some (cs, r) => some (Char.ofNat 8 :: cs, r)
          | Option.none => Option.none
        else if e = 'f' then
          match parseStrBody f rest2 with
          | some (cs, r) => some (Char.ofNat 12 :: cs, r)
          | Option.none => Option.none
        else if e = 'u' then
          match parseHex4 rest2 with
          | Option.none => Option.none
          | some (n, rest3) =>
            if 55296 ≤ n ∧ n < 56320 then
              match rest3 with
              | b1 :: b2 :: rest4 =>
                if b1 = '\\' ∧ b2 = 'u' then
                  match parseHex4 rest4 with
                  | some (m, rest5) =>
                    if 56320 ≤ m ∧ m < 57344 then
                      match parseStrBody f rest5 with
                      | some (cs, r) =>
                        some (Char.ofNat (65536 + (n - 55296) * 1024 + (m - 56320)) :: cs, r)
                      | Option.none => Option.none
                    else Option.none
                  | Option.none => Option.none
                else Option.none
              | _ => Option.none
            else if 56320 ≤ n ∧ n < 57344 then Option.none
            else
              match parseStrBody f rest3 with
              | some (cs, r) => some (Char.ofNat n :: cs, r)
              | Option.none => Option.none
        else Option.none
    else if 32 ≤ c.toNat then
      match parseStrBody f rest with
      | some (cs, r) => some (c :: cs, r)
      | Option.none => Option.none
    else Option.none

mutual

/-- json.loads, value grammar (numbers restricted to the integers the
engine stores). -/
def parseVal : Nat → List Char → Option (Value × List Char)
  | 0, _ => Option.none
  | f + 1, s =>
    match skipWs s with
    | [] => Option.none
    | c :: rest =>
      if c = 'n' then
        match rest with
        | 'u' :: 'l' :: 'l' :: r => some (Value.vnull, r)
        | _ => Option.none
      else if c = 't' then
        match rest with
        | 'r' :: 'u' :: 'e' :: r => some (Value.vbool true, r)
        | _ => Option.none
      else if c = 'f' then
        match rest with
        | 'a' :: 'l' :: 's' :: 'e' :: r => some (Value.vbool false, r)
        | _ => Option.none
      else if c = '"' then
        match parseStrBody (rest.length + 1) rest with
        | some (cs, r) => some (Value.vstr (String.mk cs), r)
        | Option.none => Option.none
      else if c = '-' then
        match spanDigits rest with
        | ([], _) => Option.none
        | (ds, r) => some (Value.vint (-(decVal ds : Int)), r)
      else if isDigitChar c then
        match spanDigits (c :: rest) with
        | ([], _) => Option.none
        | (ds, r) => some (Value.vint (decVal ds), r)
      else if c = '[' then
        match skipWs rest with
        | [] => Option.none
        | d :: r =>
          if d = ']' then some (Value.vlist [], r)
          else
            match parseItems f (d :: r) with
            | some (xs, r2) => some (Value.vlist xs, r2)
            | Option.none => Option.none
      else if c = '{' then
        match skipWs rest with
        | [] => Option.none
        | d :: r =>
          if d = '}' then some (Value.vobj [], r)
          else
            match parsePairs f (d :: r) with
            | some (kvs, r2) => some (Value.vobj kvs, r2)
            | Option.none => Option.none
      else Option.none

def parseItems : Nat → List Char → Option (List Value × List Char)
  | 0, _ => Option.none
  | f + 1, s =>
    match parseVal f s with
    | Option.none => Option.none
    | some (v, r) =>
      match skipWs r with
      | [] => Option.none
      | d :: r2 =>
        if d = ',' then
          match parseItems f r2 with
          | some (vs, r3) => some (v :: vs, r3)
          | Option.none => Option.none
        else if d = ']' then some ([v], r2)
        else Option.none

def parsePairs : Nat → List Char → Option (List (String × Value) × List Char)
  | 0, _ => Option.none
  | f + 1, s =>
    match skipWs s with
    | [] => Option.none
    | q :: r =>
      if q = '"' then
        match parseStrBody (r.length + 1) r with
        | Option.none => Option.none
        | some (k, r2) =>
          match skipWs r2 with
          | [] => Option.none
          | e :: r3 =>
            if e = ':' then
              match parseVal f r3 with
              | Option.none => Option.none
              | some (v, r4) =>
                match skipWs r4 with
                | [] => Option.none
                | d :: r5 =>
                  if d = ',' then
                    match parsePairs f r5 with
                    | some (kvs, r6) => some ((String.mk k, v) :: kvs, r6)
                    | Option.none => Option.none
                  else if d = '}' then some ([(String.mk k, v)], r5)
                  else Option.none
            else Option.none
      else Option.none

end

/-- json.loads of a whole document. -/
def loads (s : String) : Option Value :=
  match parseVal (s.toList.length + 1) s.toList with
  | some (v, r) => if skipWs r = [] then some v else Option.none
  | Option.none => Option.none

def dumps (v : Value) : String := String.mk (renderV v)

mutual

/-- Fuel needed by parseVal on the rendering of a value. -/
def costV : Value → Nat
  | .vnull => 1
  | .vbool _ => 1
  | .vint _ => 1
  | .vstr _ => 1
  | .vlist xs => 1 + costL xs
  | .vobj kvs => 1 + costKV kvs

def costL : List Value → Nat
  | [] => 0
  | x :: xs => 1 + costV x + costL xs

def costKV : List (String × Value) → Nat
  | [] => 0
  | kv :: kvs => 1 + costV kv.2 + costKV kvs

end

theorem toNat_ofNat_low {m : Nat} (h : m < 55296) : (Char.ofNat m).toNat = m := by
  have hv : m < 55296 ∨ 57343 < m ∧ m < 1114112 := Or.inl h
  simp only [Char.ofNat, hv, dite_true, dif_pos]
  simp [Char.ofNatAux, Char.toNat, UInt32.toNat, BitVec.toNat_ofNat]

theorem toNat_ofNat_high {m : Nat} (h1 : 57343 < m) (h2 : m < 1114112) :
    (Char.ofNat m).toNat = m := by
  have hv : m < 55296 ∨ 57343 < m ∧ m < 1114112 := Or.inr ⟨h1, h2⟩
  simp only [Char.ofNat, hv, dite_true, dif_pos]
  simp [Char.ofNatAux, Char.toNat, UInt32.toNat, BitVec.toNat_ofNat]

theorem char_toNat_lt (c : Char) : c.toNat < 1114112 := by
  have h := c.valid
  rcases h with h | h <;>
    simp only [Char.toNat] <;> omega

theorem char_not_surrogate (c : Char) : c.toNat < 55296 ∨ 57343 < c.toNat := by
  have h := c.valid
  rcases h with h | h
  · left
    simpa [Char.toNat] using h
  · right
    have := h.1
    simpa [Char.toNat] using this

theorem hexVal_hexDig : ∀ d, d < 16 → hexVal (hexDig d) = some d := by decide

theorem parseHex4_hex4 (n : Nat) (rest : List Char) (h : n < 65536) :
    parseHex4 (hex4 n ++ rest) = some (n, rest) := by
  have h1 := hexVal_hexDig (n / 4096 % 16) (by omega)
  have h2 := hexVal_hexDig (n / 256 % 16) (by omega)
  have h3 := hexVal_hexDig (n / 16 % 16) (by omega)
  have h4 := hexVal_hexDig (n % 16) (by omega)
  unfold hex4
  simp only [List.cons_append, List.nil_append]
  unfold parseHex4
  dsimp only
  rw [h1, h2, h3, h4]
  dsimp only
  congr 2
  omega

theorem decVal_append_digit (a : List Char) (d : Char) :
    decVal (a ++ [d]) = decVal a * 10 + (d.toNat - '0'.toNat) := by
  unfold decVal
  rw [List.foldl_append]
  rfl

theorem natDigits_spec :
    ∀ f n, n ≤ f →
      (natDigits f n).all isDigitChar = true ∧ decVal (natDigits f n) = n ∧
        natDigits f n ≠ [] := by
  intro f
  induction f with
  | zero =>
    intro n hn
    have : n = 0 := Nat.le_zero.mp hn
    subst this
    refine ⟨by decide, by decide, by decide⟩
  | succ f ih =>
    intro n hn
    have hz : '0'.toNat = 48 := rfl
    unfold natDigits
    by_cases h10 : n < 10
    · rw [if_pos h10]
      have ht : (Char.ofNat ('0'.toNat + n)).toNat = '0'.toNat + n :=
        toNat_ofNat_low (by omega)
      refine ⟨?_, ?_, by simp⟩
      · simp only [List.all_cons, List.all_nil, Bool.and_true, isDigitChar, ht]
        simp only [Bool.and_eq_true, decide_eq_true_eq]
        omega
      · simp only [decVal, List.foldl, ht]
        omega
    · rw [if_neg h10]
      have hrec := ih (n / 10) (by omega)
      have ht : (Char.ofNat ('0'.toNat + n % 10)).toNat = '0'.toNat + n % 10 :=
        toNat_ofNat_low (by omega)
      refine ⟨?_, ?_, by simp⟩
      · rw [List.all_append]
        simp only [Bool.and_eq_true]
        refine ⟨hrec.1, ?_⟩
        simp only [List.all_cons, List.all_nil, Bool.and_true, isDigitChar, ht]
        simp only [Bool.and_eq_true, decide_eq_true_eq]
        omega
      · rw [decVal_append_digit, hrec.2.1, ht]
        omega

theorem renderNat_spec (n : Nat) :
    (renderNat n).all isDigitChar = true ∧ decVal (renderNat n) = n ∧
      renderNat n ≠ [] :=
  natDigits_spec n n (Nat.le_refl n)

/-- Is the head of the list not a decimal digit (true for the empty list)? -/
def noDigitHead : List Char → Bool
  | [] => true
  | c :: _ => !isDigitChar c

theorem spanDigits_append (ds rest : List Char) (hds : ds.all isDigitChar = true)
    (hrest : noDigitHead rest = true) :
    spanDigits (ds ++ rest) = (ds, rest) := by
  induction ds with
  | nil =>
    simp only [List.nil_append]
    cases rest with
    | nil => rfl
    | cons c cs =>
      simp only [noDigitHead, Bool.not_eq_true'] at hrest
      simp [spanDigits, List.takeWhile, List.dropWhile, hrest]
  | cons d ds ih =>
    simp only [List.all_cons, Bool.and_eq_true] at hds
    have h2 := ih hds.2
    simp only [spanDigits, Prod.mk.injEq] at h2
    simp only [List.cons_append, spanDigits,
      List.takeWhile_cons_of_pos hds.1, List.dropWhile_cons_of_pos hds.1,
      Prod.mk.injEq]
    exact ⟨by rw [h2.1], h2.2⟩

theorem skipWs_not_ws {c : Char} (l : List Char) (h : isJsonWs c = false) :
    skipWs (c :: l) = c :: l := by
  simp [skipWs, List.dropWhile, h]

theorem skipWs_ws {c : Char} (l : List Char) (h : isJsonWs c = true) :
    skipWs (c :: l) = skipWs l := by
  simp [skipWs, List.dropWhile, h]

theorem parseVal_skip_ws (f : Nat) {c : Char} (s : List Char) (h : isJsonWs c = true) :
    parseVal f (c :: s) = parseVal f s := by
  cases f with
  | zero => rfl
  | succ f =>
    unfold parseVal
    rw [skipWs_ws s h]

theorem parseStrBody_quote (f : Nat) (r : List Char) :
    parseStrBody (f + 1) ('"' :: r) = some ([], r) := rfl

theorem parseStrBody_esc_quote (f : Nat) (r : List Char) :
    parseStrBody (f + 1) ('\\' :: '"' :: r) =
      (match parseStrBody f r with
       | some (cs, r2) => some ('"' :: cs, r2)
       | Option.none => Option.none) := rfl

theorem parseStrBody_esc_n (f : Nat) (r : List Char) :
    parseStrBody (f + 1) ('\\' :: 'n' :: r) =
      (match parseStrBody f r with
       | some (cs, r2) => some ('\n' :: cs, r2)
       | Option.none => Option.none) := rfl

theorem parseStrBody_esc_u (f : Nat) (r : List Char) :
    parseStrBody (f + 1) ('\\' :: 'u' :: r) =
      (match parseHex4 r with
       | Option.none => Option.none
       | some (n, rest3) =>
         if 55296 ≤ n ∧ n < 56320 then
           match rest3 with
           | b1 :: b2 :: rest4 =>
             if b1 = '\\' ∧ b2 = 'u' then
               match parseHex4 rest4 with
               | some (m, rest5) =>
                 if 56320 ≤ m ∧ m < 57344 then
                   match parseStrBody f rest5 with
                   | some (cs, r2) =>
                     some (Char.ofNat (65536 + (n - 55296) * 1024 + (m - 56320)) :: cs, r2)
                   | Option.none => Option.none
                 else Option.none
               | Option.none => Option.none
             else Option.none
           | _ => Option.none
         else if 56320 ≤ n ∧ n < 57344 then Option.none
         else
           match parseStrBody f rest3 with
           | some (cs, r2) => some (Char.ofNat n :: cs, r2)
           | Option.none => Option.none) := rfl

theorem parseStrBody_plain (f : Nat) {c : Char} (r : List Char)
    (h1 : c ≠ '"') (h2 : c ≠ '\\') (h3 : 32 ≤ c.toNat) :
    parseStrBody (f + 1) (c :: r) =
      (match parseStrBody f r with
       | some (cs, r2) => some (c :: cs, r2)
       | Option.none => Option.none) := by
  conv_lhs => rw [parseStrBody.eq_def]
  dsimp only
  rw [if_neg h1, if_neg h2, if_pos h3]

theorem parseStrBody_esc_bslash (f : Nat) (r : List Char) :
    parseStrBody (f + 1) ('\\' :: '\\' :: r) =
      (match parseStrBody f r with
       | some (cs, r2) => some ('\\' :: cs, r2)
       | Option.none => Option.none) := rfl

theorem parseStrBody_esc_r (f : Nat) (r : List Char) :
    parseStrBody (f + 1) ('\\' :: 'r' :: r) =
      (match parseStrBody f r with
       | some (cs, r2) => some ('\r' :: cs, r2)
       | Option.none => Option.none) := rfl

theorem parseStrBody_esc_t (f : Nat) (r : List Char) :
    parseStrBody (f + 1) ('\\' :: 't' :: r) =
      (match parseStrBody f r with
       | some (cs, r2) => some ('\t' :: cs, r2)
       | Option.none => Option.none) := rfl

theorem parseStrBody_esc_b (f : Nat) (r : List Char) :
    parseStrBody (f + 1) ('\\' :: 'b' :: r) =
      (match parseStrBody f r with
       | some (cs, r2) => some (Char.ofNat 8 :: cs, r2)
       | Option.none => Option.none) := rfl

theorem parseStrBody_esc_f (f : Nat) (r : List Char) :
    parseStrBody (f + 1) ('\\' :: 'f' :: r) =
      (match parseStrBody f r with
       | some (cs, r2) => some (Char.ofNat 12 :: cs, r2)
       | Option.none => Option.none) := rfl

theorem escChar_length_pos (c : Char) : 0 < (escChar c).length := by
  unfold escChar
  repeat' split
  all_goals simp

theorem parseStrBody_escBody :
    ∀ l f rest, (escBody l).length < f →
      parseStrBody f (escBody l ++ '"' :: rest) = some (l, rest) := by
  intro l
  induction l with
  | nil =>
    intro f rest hf
    cases f with
    | zero => omega
    | succ f => exact parseStrBody_quote f rest
  | cons c cs ih =>
    intro f rest hf
    cases f with
    | zero =>
      exact absurd hf (by omega)
    | succ f =>
      have hpos := escChar_length_pos c
      have hb : escBody (c :: cs) = escChar c ++ escBody cs := rfl
      have hlen : (escBody cs).length < f := by
        rw [hb, List.length_append] at hf
        omega
      by_cases h1 : c = '"'
      · subst h1
        have he : escChar '"' = ['\\', '"'] := by decide
        rw [hb, he]
        simp only [List.cons_append, List.nil_append]
        rw [parseStrBody_esc_quote, ih f rest hlen]
      · by_cases h2 : c = '\\'
        · subst h2
          have he : escChar '\\' = ['\\', '\\'] := by decide
          rw [hb, he]
          simp only [List.cons_append, List.nil_append]
          rw [parseStrBody_esc_bslash, ih f rest hlen]
        · by_cases h3 : c = '\n'
          · subst h3
            have he : escChar '\n' = ['\\', 'n'] := by decide
            rw [hb, he]
            simp only [List.cons_append, List.nil_append]
            rw [parseStrBody_esc_n, ih f rest hlen]
          · by_cases h4 : c = '\r'
            · subst h4
              have he : escChar '\r' = ['\\', 'r'] := by decide
              rw [hb, he]
              simp only [List.cons_append, List.nil_append]
              rw [parseStrBody_esc_r, ih f rest hlen]
            · by_cases h5 : c = '\t'
              · subst h5
                have he : escChar '\t' = ['\\', 't'] := by decide
                rw [hb, he]
                simp only [List.cons_append, List.nil_append]
                rw [parseStrBody_esc_t, ih f rest hlen]
              · by_cases h6 : c.toNat = 8
                · have hc8 : c = Char.ofNat 8 := by
                    have h := Char.ofNat_toNat c
                    rw [h6] at h
                    exact h.symm
                  have he : escChar c = ['\\', 'b'] := by
                    rw [hc8]
                    decide
                  rw [hb, he]
                  simp only [List.cons_append, List.nil_append]
                  rw [parseStrBody_esc_b, ih f rest hlen, hc8]
                · by_cases h7 : c.toNat = 12
                  · have hc12 : c = Char.ofNat 12 := by
                      have h := Char.ofNat_toNat c
                      rw [h7] at h
                      exact h.symm
                    have he : escChar c = ['\\', 'f'] := by
                      rw [hc12]
                      decide
                    rw [hb, he]
                    simp only [List.cons_append, List.nil_append]
                    rw [parseStrBody_esc_f, ih f rest hlen, hc12]
                  · by_cases h8 : c.toNat < 32
                    · have he : escChar c = '\\' :: 'u' :: hex4 c.toNat := by
                        simp [escChar, h1, h2, h3, h4, h5, h6, h7, h8]
                      rw [hb, he]
                      simp only [List.cons_append, List.append_assoc]
                      rw [parseStrBody_esc_u, parseHex4_hex4 c.toNat _ (by omega)]
                      dsimp only
                      have hsur := char_not_surrogate c
                      rw [if_neg (by omega : ¬(55296 ≤ c.toNat ∧ c.toNat < 56320)),
                        if_neg (by omega : ¬(56320 ≤ c.toNat ∧ c.toNat < 57344)),
                        ih f rest hlen]
                      dsimp only
                      rw [Char.ofNat_toNat]
                    · by_cases h9 : c.toNat < 127
                      · have he : escChar c = [c] := by
                          simp [escChar, h1, h2, h3, h4, h5, h6, h7, h8, h9]
                        rw [hb, he]
                        simp only [List.cons_append, List.nil_append]
                        rw [parseStrBody_plain f _ h1 h2 (by omega), ih f rest hlen]
                      · by_cases h10 : c.toNat ≤ 65535
                        · have he : escChar c = '\\' :: 'u' :: hex4 c.toNat := by
                            simp [escChar, h1, h2, h3, h4, h5, h6, h7, h8, h9, h10]
                          rw [hb, he]
                          simp only [List.cons_append, List.append_assoc]
                          rw [parseStrBody_esc_u, parseHex4_hex4 c.toNat _ (by omega)]
                          dsimp only
                          have hsur := char_not_surrogate c
                          rw [if_neg (by omega : ¬(55296 ≤ c.toNat ∧ c.toNat < 56320)),
                            if_neg (by omega : ¬(56320 ≤ c.toNat ∧ c.toNat < 57344)),
                            ih f rest hlen]
                          dsimp only
                          rw [Char.ofNat_toNat]
                        · have hc := char_toNat_lt c
                          have he : escChar c =
                              ('\\' :: 'u' :: hex4 (55296 + (c.toNat - 65536) / 1024)) ++
                              ('\\' :: 'u' :: hex4 (56320 + (c.toNat - 65536) % 1024)) := by
                            simp [escChar, h1, h2, h3, h4, h5, h6, h7, h8, h9, h10]
                          rw [hb, he]
                          simp only [List.cons_append, List.append_assoc]
                          rw [parseStrBody_esc_u,
                            parseHex4_hex4 (55296 + (c.toNat - 65536) / 1024) _ (by omega)]
                          dsimp only
                          rw [if_pos (by omega :
                            55296 ≤ 55296 + (c.toNat - 65536) / 1024 ∧
                              55296 + (c.toNat - 65536) / 1024 < 56320)]
                          rw [if_pos (⟨rfl, rfl⟩ : ('\\' : Char) = '\\' ∧ ('u' : Char) = 'u')]
                          rw [parseHex4_hex4 (56320 + (c.toNat - 65536) % 1024) _ (by omega)]
                          dsimp only
                          rw [if_pos (by omega :
                            56320 ≤ 56320 + (c.toNat - 65536) % 1024 ∧
                              56320 + (c.toNat - 65536) % 1024 < 57344)]
                          rw [ih f rest hlen]
                          dsimp only
                          have harith : 65536 +
                              (55296 + (c.toNat - 65536) / 1024 - 55296) * 1024 +
                              (56320 + (c.toNat - 65536) % 1024 - 56320) = c.toNat := by
                            omega
                          rw [harith, Char.ofNat_toNat]

theorem string_mk_toList (s : String) : String.mk s.toList = s := rfl

theorem digit_not_ws {c : Char} (h : isDigitChar c = true) : isJsonWs c = false := by
  by_contra hw
  have hw2 : isJsonWs c = true := by
    cases hc : isJsonWs c
    · exact absurd hc hw
    · rfl
  simp only [isJsonWs, Bool.or_eq_true, decide_eq_true_eq] at hw2
  rcases hw2 with ((he | he) | he) | he <;> subst he <;> exact absurd h (by decide)

theorem digit_ne_marks {c : Char} (h : isDigitChar c = true) :
    c ≠ 'n' ∧ c ≠ 't' ∧ c ≠ 'f' ∧ c ≠ '"' ∧ c ≠ '-' ∧ c ≠ '[' ∧ c ≠ '{' ∧
      c ≠ ']' ∧ c ≠ '}' ∧ c ≠ ',' ∧ c ≠ ':' := by
  refine ⟨?_, ?_, ?_, ?_, ?_, ?_, ?_, ?_, ?_, ?_, ?_⟩ <;>
    intro he <;> subst he <;> exact absurd h (by decide)

/-- Characters that can begin the rendering of a value. -/
def vstartOk (c : Char) : Bool :=
  isDigitChar c || c = 'n' || c = 't' || c = 'f' || c = '"' || c = '-' || c = '[' || c = '{'

theorem vstart_not_ws {c : Char} (h : vstartOk c = true) : isJsonWs c = false := by
  simp only [vstartOk, Bool.or_eq_true, decide_eq_true_eq] at h
  rcases h with ((((((hd | he) | he) | he) | he) | he) | he) | he
  · exact digit_not_ws hd
  all_goals subst he <;> decide

theorem vstart_ne_close {c : Char} (h : vstartOk c = true) :
    c ≠ ']' ∧ c ≠ '}' ∧ c ≠ ',' ∧ c ≠ ':' := by
  simp only [vstartOk, Bool.or_eq_true, decide_eq_true_eq] at h
  rcases h with ((((((hd | he) | he) | he) | he) | he) | he) | he
  · obtain ⟨_, _, _, _, _, _, _, h8, h9, h10, h11⟩ := digit_ne_marks hd
    exact ⟨h8, h9, h10, h11⟩
  all_goals subst he <;> refine ⟨by decide, by decide, by decide, by decide⟩

theorem renderV_cons (v : Value) :
    ∃ c cs, renderV v = c :: cs ∧ vstartOk c = true := by
  cases v with
  | vnull => exact ⟨'n', _, rfl, by decide⟩
  | vbool b =>
    cases b
    · exact ⟨'f', _, rfl, by decide⟩
    · exact ⟨'t', _, rfl, by decide⟩
  | vint i =>
    show ∃ c cs, renderInt i = c :: cs ∧ vstartOk c = true
    unfold renderInt
    by_cases hi : i < 0
    · rw [if_pos hi]
      exact ⟨'-', _, rfl, by decide⟩
    · rw [if_neg hi]
      obtain ⟨hall, _, hne⟩ := renderNat_spec i.toNat
      cases hd : renderNat i.toNat with
      | nil => exact absurd hd hne
      | cons c cs =>
        refine ⟨c, cs, rfl, ?_⟩
        rw [hd, List.all_cons, Bool.and_eq_true] at hall
        simp [vstartOk, hall.1]
  | vstr s => exact ⟨'"', _, rfl, by decide⟩
  | vlist xs => exact ⟨'[', _, rfl, by decide⟩
  | vobj kvs => exact ⟨'{', _, rfl, by decide⟩

theorem parseVal_null (f : Nat) (r : List Char) :
    parseVal (f + 1) ('n' :: 'u' :: 'l' :: 'l' :: r) = some (Value.vnull, r) := rfl

theorem parseVal_true (f : Nat) (r : List Char) :
    parseVal (f + 1) ('t' :: 'r' :: 'u' :: 'e' :: r) = some (Value.vbool true, r) := rfl

theorem parseVal_false (f : Nat) (r : List Char) :
    parseVal (f + 1) ('f' :: 'a' :: 'l' :: 's' :: 'e' :: r) =
      some (Value.vbool false, r) := rfl

theorem parseVal_str (f : Nat) (r : List Char) :
    parseVal (f + 1) ('"' :: r) =
      (match parseStrBody (r.length + 1) r with
       | some (cs, r2) => some (Value.vstr (String.mk cs), r2)
       | Option.none => Option.none) := rfl

theorem parseVal_neg (f : Nat) (r : List Char) :
    parseVal (f + 1) ('-' :: r) =
      (match spanDigits r with
       | ([], _) => Option.none
       | (ds, r2) => some (Value.vint (-(decVal ds : Int)), r2)) := rfl

theorem parseVal_lbrack (f : Nat) (r : List Char) :
    parseVal (f + 1) ('[' :: r) =
      (match skipWs r with
       | [] => Option.none
       | d :: r2 =>
         if d = ']' then some (Value.vlist [], r2)
         else
           match parseItems f (d :: r2) with
           | some (xs, r3) => some (Value.vlist xs, r3)
           | Option.none => Option.none) := rfl

theorem parseVal_lbrace (f : Nat) (r : List Char) :
    parseVal (f + 1) ('{' :: r) =
      (match skipWs r with
       | [] => Option.none
       | d :: r2 =>
         if d = '}' then some (Value.vobj [], r2)
         else
           match parsePairs f (d :: r2) with
           | some (kvs, r3) => some (Value.vobj kvs, r3)
           | Option.none => Option.none) := rfl

theorem parseVal_digit (f : Nat) {c : Char} (r : List Char) (h : isDigitChar c = true) :
    parseVal (f + 1) (c :: r) =
      (match spanDigits (c :: r) with
       | ([], _) => Option.none
       | (ds, r2) => some (Value.vint (decVal ds), r2)) := by
  obtain ⟨hn, ht, hf2, hq, hm, _, _, _, _, _, _⟩ := digit_ne_marks h
  conv_lhs => rw [parseVal.eq_def]
  dsimp only
  rw [skipWs_not_ws r (digit_not_ws h)]
  dsimp only
  rw [if_neg hn, if_neg ht, if_neg hf2, if_neg hq, if_neg hm, if_pos h]

theorem parseItems_step (f : Nat) (s : List Char) :
    parseItems (f + 1) s =
      (match parseVal f s with
       | Option.none => Option.none
       | some (v, r) =>
         match skipWs r with
         | [] => Option.none
         | d :: r2 =>
           if d = ',' then
             match parseItems f r2 with
             | some (vs, r3) => some (v :: vs, r3)
             | Option.none => Option.none
           else if d = ']' then some ([v], r2)
           else Option.none) := rfl

theorem parsePairs_step (f : Nat) (s : List Char) :
    parsePairs (f + 1) s =
      (match skipWs s with
       | [] => Option.none
       | q :: r =>
         if q = '"' then
           match parseStrBody (r.length + 1) r with
           | Option.none => Option.none
           | some (k, r2) =>
             match skipWs r2 with
             | [] => Option.none
             | e :: r3 =>
               if e = ':' then
                 match parseVal f r3 with
                 | Option.none => Option.none
                 | some (v, r4) =>
                   match skipWs r4 with
                   | [] => Option.none
                   | d :: r5 =>
                     if d = ',' then
                       match parsePairs f r5 with
                       | some (kvs, r6) => some ((String.mk k, v) :: kvs, r6)
                       | Option.none => Option.none
                     else if d = '}' then some ([(String.mk k, v)], r5)
                     else Option.none
               else Option.none
         else Option.none) := rfl

theorem parseItems_skip_ws (f : Nat) {c : Char} (s : List Char) (h : isJsonWs c = true) :
    parseItems f (c :: s) = parseItems f s := by
  cases f with
  | zero => rfl
  | succ f =>
    rw [parseItems_step, parseItems_step, parseVal_skip_ws f s h]

theorem parsePairs_skip_ws (f : Nat) {c : Char} (s : List Char) (h : isJsonWs c = true) :
    parsePairs f (c :: s) = parsePairs f s := by
  cases f with
  | zero => rfl
  | succ f =>
    rw [parsePairs_step, parsePairs_step, skipWs_ws s h]

theorem costV_pos (v : Value) : 1 ≤ costV v := by
  cases v <;> simp [costV]

theorem costL_pos {xs : List Value} (h : xs ≠ []) : 1 ≤ costL xs := by
  cases xs with
  | nil => exact absurd rfl h
  | cons x t =>
    have := costV_pos x
    simp [costL]
    omega

theorem costKV_pos {kvs : List (String × Value)} (h : kvs ≠ []) : 1 ≤ costKV kvs := by
  cases kvs with
  | nil => exact absurd rfl h
  | cons kv t =>
    have := costV_pos kv.2
    simp [costKV]
    omega

theorem renderItems_cons (x : Value) (t : List Value) :
    ∃ c cs, renderItems (x :: t) = c :: cs ∧ vstartOk c = true := by
  obtain ⟨c, cs, hcx, hok⟩ := renderV_cons x
  cases t with
  | nil => exact ⟨c, cs, hcx, hok⟩
  | cons y t' =>
    refine ⟨c, cs ++ ',' :: ' ' :: renderItems (y :: t'), ?_, hok⟩
    show renderV x ++ ',' :: ' ' :: renderItems (y :: t') = _
    rw [hcx, List.cons_append]

theorem renderPairs_cons (kv : String × Value) (t : List (String × Value)) :
    ∃ cs, renderPairs (kv :: t) = '"' :: cs := by
  cases t with
  | nil =>
    refine ⟨escBody kv.1.toList ++ ['"'] ++ ':' :: ' ' :: renderV kv.2, ?_⟩
    show escString kv.1 ++ ':' :: ' ' :: renderV kv.2 = _
    unfold escString
    simp [List.cons_append, List.append_assoc]
  | cons kv2 t' =>
    refine ⟨escBody kv.1.toList ++ ['"'] ++ ':' :: ' ' :: renderV kv.2 ++
      ',' :: ' ' :: renderPairs (kv2 :: t'), ?_⟩
    show escString kv.1 ++ ':' :: ' ' :: renderV kv.2 ++
      ',' :: ' ' :: renderPairs (kv2 :: t') = _
    unfold escString
    simp [List.cons_append, List.append_assoc]

theorem parse_render_aux : ∀ f,
    (∀ v rest, costV v ≤ f → noDigitHead rest = true →
      parseVal f (renderV v ++ rest) = some (v, rest)) ∧
    (∀ xs rest, xs ≠ [] → costL xs ≤ f →
      parseItems f (renderItems xs ++ ']' :: rest) = some (xs, rest)) ∧
    (∀ kvs rest, kvs ≠ [] → costKV kvs ≤ f →
      parsePairs f (renderPairs kvs ++ '}' :: rest) = some (kvs, rest)) := by
  intro f
  induction f with
  | zero =>
    refine ⟨?_, ?_, ?_⟩
    · intro v rest hcv _
      exact absurd hcv (by have := costV_pos v; omega)
    · intro xs rest hne hcl
      exact absurd hcl (by have := costL_pos hne; omega)
    · intro kvs rest hne hck
      exact absurd hck (by have := costKV_pos hne; omega)
  | succ f ih =>
    obtain ⟨ihV, ihL, ihKV⟩ := ih
    refine ⟨?_, ?_, ?_⟩
    · intro v rest hcv hrest
      cases v with
      | vnull =>
        show parseVal (f + 1) (['n', 'u', 'l', 'l'] ++ rest) = _
        simp only [List.cons_append, List.nil_append]
        exact parseVal_null f rest
      | vbool b =>
        cases b
        · show parseVal (f + 1) (['f', 'a', 'l', 's', 'e'] ++ rest) = _
          simp only [List.cons_append, List.nil_append]
          exact parseVal_false f rest
        · show parseVal (f + 1) (['t', 'r', 'u', 'e'] ++ rest) = _
          simp only [List.cons_append, List.nil_append]
          exact parseVal_true f rest
      | vint i =>
        show parseVal (f + 1) (renderInt i ++ rest) = _
        unfold renderInt
        by_cases hi : i < 0
        · rw [if_pos hi, List.cons_append, parseVal_neg]
          obtain ⟨hall, hdec, hne⟩ := renderNat_spec (-i).toNat
          rw [spanDigits_append _ _ hall hrest]
          cases hd : renderNat (-i).toNat with
          | nil => exact absurd hd hne
          | cons d ds =>
            rw [hd] at hdec
            dsimp only
            rw [hdec]
            have hival : (-((-i).toNat : Int)) = i := by omega
            rw [hival]
        · rw [if_neg hi]
          obtain ⟨hall, hdec, hne⟩ := renderNat_spec i.toNat
          cases hd : renderNat i.toNat with
          | nil => exact absurd hd hne
          | cons d ds =>
            rw [hd] at hall hdec
            rw [List.cons_append]
            have hdig : isDigitChar d = true := by
              rw [List.all_cons, Bool.and_eq_true] at hall
              exact hall.1
            rw [parseVal_digit f _ hdig]
            have hsp : spanDigits (d :: (ds ++ rest)) = (d :: ds, rest) := by
              have hs := spanDigits_append (d :: ds) rest hall hrest
              rw [List.cons_append] at hs
              exact hs
            rw [hsp]
            dsimp only
            rw [hdec]
            have hival : ((i.toNat : Nat) : Int) = i := by omega
            rw [hival]
      | vstr s =>
        show parseVal (f + 1) (escString s ++ rest) = _
        unfold escString
        simp only [List.cons_append, List.append_assoc, List.nil_append]
        rw [parseVal_str]
        rw [parseStrBody_escBody s.toList _ rest
          (by simp only [List.length_append, List.length_cons]; omega)]
        dsimp only
        rw [string_mk_toList]
      | vlist xs =>
        show parseVal (f + 1) (('[' :: (renderItems xs ++ [']'])) ++ rest) = _
        simp only [List.cons_append, List.append_assoc, List.nil_append]
        rw [parseVal_lbrack]
        cases xs with
        | nil =>
          show (match skipWs (renderItems [] ++ ']' :: rest) with
            | [] => Option.none
            | d :: r2 =>
              if d = ']' then some (Value.vlist [], r2)
              else
                match parseItems f (d :: r2) with
                | some (xs, r3) => some (Value.vlist xs, r3)
                | Option.none => Option.none) = some (Value.vlist [], rest)
          have hnil : renderItems [] ++ ']' :: rest = ']' :: rest := rfl
          rw [hnil, skipWs_not_ws rest (by decide)]
          dsimp only
          rw [if_pos rfl]
        | cons x t =>
          obtain ⟨c, cs, hcx, hok⟩ := renderItems_cons x t
          rw [hcx, List.cons_append, skipWs_not_ws _ (vstart_not_ws hok)]
          dsimp only
          rw [if_neg (vstart_ne_close hok).1]
          rw [← List.cons_append, ← hcx]
          have hcost : costL (x :: t) ≤ f := by
            simp only [costV] at hcv
            omega
          rw [ihL (x :: t) rest (by simp) hcost]
      | vobj kvs =>
        show parseVal (f + 1) (('{' :: (renderPairs kvs ++ ['}'])) ++ rest) = _
        simp only [List.cons_append, List.append_assoc, List.nil_append]
        rw [parseVal_lbrace]
        cases kvs with
        | nil =>
          show (match skipWs (renderPairs [] ++ '}' :: rest) with
            | [] => Option.none
            | d :: r2 =>
              if d = '}' then some (Value.vobj [], r2)
              else
                match parsePairs f (d :: r2) with
                | some (kvs, r3) => some (Value.vobj kvs, r3)
                | Option.none => Option.none) = some (Value.vobj [], rest)
          have hnil : renderPairs [] ++ '}' :: rest = '}' :: rest := rfl
          rw [hnil, skipWs_not_ws rest (by decide)]
          dsimp only
          rw [if_pos rfl]
        | cons kv t =>
          obtain ⟨cs, hcx⟩ := renderPairs_cons kv t
          rw [hcx, List.cons_append, skipWs_not_ws _ (by decide)]
          dsimp only
          rw [if_neg (by decide : ¬('"' : Char) = '}')]
          rw [← List.cons_append, ← hcx]
          have hcost : costKV (kv :: t) ≤ f := by
            simp only [costV] at hcv
            omega
          rw [ihKV (kv :: t) rest (by simp) hcost]
    · intro xs rest hne hcl
      cases xs with
      | nil => exact absurd rfl hne
      | cons x t =>
        rw [parseItems_step]
        cases t with
        | nil =>
          have hri : renderItems [x] ++ ']' :: rest = renderV x ++ ']' :: rest := rfl
          rw [hri]
          have hcostx : costV x ≤ f := by
            simp only [costL] at hcl
            omega
          rw [ihV x (']' :: rest) hcostx rfl]
          dsimp only
          rw [skipWs_not_ws rest (by decide)]
          dsimp only
          rw [if_neg (by decide : ¬(']' : Char) = ','), if_pos rfl]
        | cons y t' =>
          have hri : renderItems (x :: y :: t') ++ ']' :: rest =
              renderV x ++ (',' :: ' ' :: (renderItems (y :: t') ++ ']' :: rest)) := by
            show (renderV x ++ ',' :: ' ' :: renderItems (y :: t')) ++ ']' :: rest = _
            simp only [List.cons_append, List.append_assoc]
          rw [hri]
          have hcostx : costV x ≤ f := by
            have e1 : costL (x :: y :: t') = 1 + costV x + costL (y :: t') := rfl
            have e2 : costL (y :: t') = 1 + costV y + costL t' := rfl
            omega
          rw [ihV x (',' :: ' ' :: (renderItems (y :: t') ++ ']' :: rest)) hcostx rfl]
          dsimp only
          rw [skipWs_not_ws _ (by decide)]
          dsimp only
          rw [if_pos rfl]
          rw [parseItems_skip_ws f _ (by decide)]
          have hcost2 : costL (y :: t') ≤ f := by
            have e1 : costL (x :: y :: t') = 1 + costV x + costL (y :: t') := rfl
            omega
          rw [ihL (y :: t') rest (by simp) hcost2]
    · intro kvs rest hne hck
      cases kvs with
      | nil => exact absurd rfl hne
      | cons kv t =>
        rw [parsePairs_step]
        have hcostv : costV kv.2 ≤ f := by
          have e1 : costKV (kv :: t) = 1 + costV kv.2 + costKV t := rfl
          have h2 : 0 ≤ costKV t := Nat.zero_le _
          omega
        cases t with
        | nil =>
          have hrp : renderPairs [kv] ++ '}' :: rest =
              '"' :: (escBody kv.1.toList ++
                '"' :: ':' :: ' ' :: (renderV kv.2 ++ '}' :: rest)) := by
            show (escString kv.1 ++ ':' :: ' ' :: renderV kv.2) ++ '}' :: rest = _
            unfold escString
            simp only [List.cons_append, List.append_assoc, List.nil_append]
          rw [hrp, skipWs_not_ws _ (by decide)]
          dsimp only
          rw [if_pos rfl]
          rw [parseStrBody_escBody kv.1.toList _ _
            (by simp only [List.length_append, List.length_cons]; omega)]
          dsimp only
          rw [skipWs_not_ws _ (by decide)]
          dsimp only
          rw [if_pos rfl]
          rw [parseVal_skip_ws f _ (by decide)]
          rw [ihV kv.2 ('}' :: rest) hcostv rfl]
          dsimp only
          rw [skipWs_not_ws _ (by decide)]
          dsimp only
          rw [if_neg (by decide : ¬('}' : Char) = ','), if_pos rfl]
          rw [string_mk_toList]
        | cons kv2 t' =>
          have hrp : renderPairs (kv :: kv2 :: t') ++ '}' :: rest =
              '"' :: (escBody kv.1.toList ++
                '"' :: ':' :: ' ' :: (renderV kv.2 ++
                  ',' :: ' ' :: (renderPairs (kv2 :: t') ++ '}' :: rest))) := by
            show (escString kv.1 ++ ':' :: ' ' :: renderV kv.2 ++
              ',' :: ' ' :: renderPairs (kv2 :: t')) ++ '}' :: rest = _
            unfold escString
            simp only [List.cons_append, List.append_assoc, List.nil_append]
          rw [hrp, skipWs_not_ws _ (by decide)]
          dsimp only
          rw [if_pos rfl]
          rw [parseStrBody_escBody kv.1.toList _ _
            (by simp only [List.length_append, List.length_cons]; omega)]
          dsimp only
          rw [skipWs_not_ws _ (by decide)]
          dsimp only
          rw [if_pos rfl]
          rw [parseVal_skip_ws f _ (by decide)]
          rw [ihV kv.2 (',' :: ' ' :: (renderPairs (kv2 :: t') ++ '}' :: rest)) hcostv rfl]
          dsimp only
          rw [skipWs_not_ws _ (by decide)]
          dsimp only
          rw [if_pos rfl]
          rw [parsePairs_skip_ws f _ (by decide)]
          have hcost2 : costKV (kv2 :: t') ≤ f := by
            have e1 : costKV (kv :: kv2 :: t') = 1 + costV kv.2 + costKV (kv2 :: t') := rfl
            omega
          rw [ihKV (kv2 :: t') rest (by simp) hcost2]
          rw [string_mk_toList]

theorem cost_le_len_aux :
    ∀ (n : Nat) (v : Value), sizeOf v ≤ n → costV v ≤ (renderV v).length := by
  intro n
  induction n with
  | zero =>
    intro v hs
    exact absurd hs (by cases v <;> simp)
  | succ n ih =>
    have ihL : ∀ (xs : List Value), sizeOf xs ≤ n + 1 →
        costL xs ≤ (renderItems xs).length + 1 := by
      intro xs
      induction xs with
      | nil =>
        intro _
        simp [costL]
      | cons x xs ihxs =>
        intro hs
        have hsz := List.cons.sizeOf_spec x xs
        have hx : sizeOf x ≤ n := by omega
        have h1 := ih x hx
        cases xs with
        | nil =>
          have e1 : costL [x] = 1 + costV x + 0 := rfl
          have e2 : renderItems [x] = renderV x := rfl
          rw [e2]
          omega
        | cons y t =>
          have h2 := ihxs (by omega)
          have e1 : costL (x :: y :: t) = 1 + costV x + costL (y :: t) := rfl
          have e2 : (renderItems (x :: y :: t)).length =
              (renderV x).length + 2 + (renderItems (y :: t)).length := by
            show (renderV x ++ ',' :: ' ' :: renderItems (y :: t)).length = _
            simp [List.length_append]
            omega
          omega
    have ihKV : ∀ (kvs : List (String × Value)), sizeOf kvs ≤ n + 1 →
        costKV kvs ≤ (renderPairs kvs).length + 1 := by
      intro kvs
      induction kvs with
      | nil =>
        intro _
        simp [costKV]
      | cons kv kvs ihxs =>
        obtain ⟨k, v2⟩ := kv
        intro hs
        have hsz := List.cons.sizeOf_spec (k, v2) kvs
        have hszp := Prod.mk.sizeOf_spec k v2
        have hv : sizeOf v2 ≤ n := by omega
        have h1 := ih v2 hv
        cases kvs with
        | nil =>
          have e1 : costKV [(k, v2)] = 1 + costV v2 + 0 := rfl
          have e2 : (renderPairs [(k, v2)]).length =
              (escString k).length + 2 + (renderV v2).length := by
            show (escString k ++ ':' :: ' ' :: renderV v2).length = _
            simp [List.length_append]
            omega
          omega
        | cons kv2 t =>
          have h2 := ihxs (by omega)
          have e1 : costKV ((k, v2) :: kv2 :: t) =
              1 + costV v2 + costKV (kv2 :: t) := rfl
          have e2 : (renderPairs ((k, v2) :: kv2 :: t)).length =
              (escString k).length + 2 + (renderV v2).length + 2 +
                (renderPairs (kv2 :: t)).length := by
            show (escString k ++ ':' :: ' ' :: renderV v2 ++
              ',' :: ' ' :: renderPairs (kv2 :: t)).length = _
            simp [List.length_append]
            omega
          omega
    intro v hs
    cases v with
    | vnull => simp [costV, renderV]
    | vbool b => cases b <;> simp [costV, renderV]
    | vint i =>
      have hlen : 1 ≤ (renderInt i).length := by
        unfold renderInt
        by_cases hi : i < 0
        · rw [if_pos hi]
          simp
        · rw [if_neg hi]
          have hne := (renderNat_spec i.toNat).2.2
          cases hd : renderNat i.toNat with
          | nil => exact absurd hd hne
          | cons d ds => simp
      have e : costV (Value.vint i) = 1 := rfl
      show costV (Value.vint i) ≤ (renderInt i).length
      omega
    | vstr s =>
      show costV (Value.vstr s) ≤ (escString s).length
      have e : costV (Value.vstr s) = 1 := rfl
      have e2 : (escString s).length = (escBody s.toList).length + 2 := by
        unfold escString
        simp [List.length_append]
      omega
    | vlist xs =>
      have hsz := Value.vlist.sizeOf_spec xs
      have h := ihL xs (by omega)
      have e1 : costV (Value.vlist xs) = 1 + costL xs := rfl
      have e2 : (renderV (Value.vlist xs)).length = (renderItems xs).length + 2 := by
        show ('[' :: (renderItems xs ++ [']'])).length = _
        simp
      omega
    | vobj kvs =>
      have hsz := Value.vobj.sizeOf_spec kvs
      have h := ihKV kvs (by omega)
      have e1 : costV (Value.vobj kvs) = 1 + costKV kvs := rfl
      have e2 : (renderV (Value.vobj kvs)).length = (renderPairs kvs).length + 2 := by
        show ('{' :: (renderPairs kvs ++ ['}'])).length = _
        simp
      omega

/-- json.loads inverts json.dumps on every storable value. -/
theorem loads_dumps (v : Value) : loads (dumps v) = some v := by
  unfold loads dumps
  have htos : (String.mk (renderV v)).toList = renderV v := rfl
  rw [htos]
  have hcost : costV v ≤ (renderV v).length + 1 := by
    have := cost_le_len_aux (sizeOf v) v (Nat.le_refl _)
    omega
  have h := (parse_render_aux ((renderV v).length + 1)).1 v [] hcost rfl
  rw [List.append_nil] at h
  rw [h]
  rfl

/-- Zero-padded fixed-width decimal (str % formatting with %04d / %02d / %06d). -/
def pad0 (w n : Nat) : List Char :=
  List.replicate (w - (renderNat n).length) '0' ++ renderNat n

/-- datetime.isoformat() on a naive timestamp: YYYY-MM-DDTHH:MM:SS, with the
.ffffff suffix exactly when microsecond is nonzero. -/
def isoformat (dt : PyDateTime) : String :=
  String.mk (pad0 4 dt.year ++ '-' :: pad0 2 dt.month ++ '-' :: pad0 2 dt.day ++
    'T' :: pad0 2 dt.hour ++ ':' :: pad0 2 dt.minute ++ ':' :: pad0 2 dt.second ++
    (if dt.microsecond = 0 then [] else '.' :: pad0 6 dt.microsecond))

/-- datetime.fromisoformat on the strings isoformat emits: split the six (or
seven) decimal fields at their separators. -/
def parseIso (s : String) : Option PyDateTime :=
  match spanDigits s.toList with
  | (y, c1 :: r1) =>
    if y = [] ∨ c1 ≠ '-' then Option.none else
    match spanDigits r1 with
    | (mo, c2 :: r2) =>
      if mo = [] ∨ c2 ≠ '-' then Option.none else
      match spanDigits r2 with
      | (d, c3 :: r3) =>
        if d = [] ∨ c3 ≠ 'T' then Option.none else
        match spanDigits r3 with
        | (h, c4 :: r4) =>
          if h = [] ∨ c4 ≠ ':' then Option.none else
          match spanDigits r4 with
          | (mi, c5 :: r5) =>
            if mi = [] ∨ c5 ≠ ':' then Option.none else
            match spanDigits r5 with
            | (sec, []) =>
              if sec = [] then Option.none
              else some ⟨decVal y, decVal mo, decVal d, decVal h, decVal mi,
                decVal sec, 0⟩
            | (sec, c6 :: r6) =>
              if sec = [] ∨ c6 ≠ '.' then Option.none else
              match spanDigits r6 with
              | (us, []) =>
                if us = [] then Option.none
                else some ⟨decVal y, decVal mo, decVal d, decVal h, decVal mi,
                  decVal sec, decVal us⟩
              | _ => Option.none
          | _ => Option.none
        | _ => Option.none
      | _ => Option.none
    | _ => Option.none
  | _ => Option.none

theorem noDigitHead_cons {c : Char} (l : List Char) (h : isDigitChar c = false) :
    noDigitHead (c :: l) = true := by
  simp [noDigitHead, h]

theorem pad0_all_digits (w n : Nat) : (pad0 w n).all isDigitChar = true := by
  unfold pad0
  rw [List.all_append]
  simp only [Bool.and_eq_true]
  constructor
  · simp only [List.all_eq_true]
    intro x hx
    rw [List.mem_replicate] at hx
    rw [hx.2]
    decide
  · exact (renderNat_spec n).1

theorem pad0_ne_nil (w n : Nat) : pad0 w n ≠ [] := by
  unfold pad0
  intro h
  rcases List.append_eq_nil.mp h with ⟨_, h2⟩
  exact (renderNat_spec n).2.2 h2

theorem decVal_replicate_zero (k : Nat) (ds : List Char) :
    decVal (List.replicate k '0' ++ ds) = decVal ds := by
  induction k with
  | zero => simp
  | succ k ih =>
    rw [List.replicate_succ, List.cons_append]
    have e : decVal ('0' :: (List.replicate k '0' ++ ds)) =
        List.foldl (fun acc c => acc * 10 + (c.toNat - '0'.toNat))
          (0 * 10 + ('0'.toNat - '0'.toNat)) (List.replicate k '0' ++ ds) := rfl
    rw [e]
    have e2 : 0 * 10 + ('0'.toNat - '0'.toNat) = 0 := by decide
    rw [e2]
    exact ih

theorem decVal_pad0 (w n : Nat) : decVal (pad0 w n) = n := by
  unfold pad0
  rw [decVal_replicate_zero]
  exact (renderNat_spec n).2.1

theorem spanDigits_pad0 (w n : Nat) (rest : List Char) (h : noDigitHead rest = true) :
    spanDigits (pad0 w n ++ rest) = (pad0 w n, rest) :=
  spanDigits_append _ _ (pad0_all_digits w n) h

theorem spanDigits_pad0_nil (w n : Nat) : spanDigits (pad0 w n) = (pad0 w n, []) := by
  have h := spanDigits_pad0 w n [] rfl
  rwa [List.append_nil] at h

/-- fromisoformat inverts isoformat. -/
theorem parseIso_isoformat (dt : PyDateTime) : parseIso (isoformat dt) = some dt := by
  obtain ⟨y, mo, d, h, mi, sec, us⟩ := dt
  unfold parseIso isoformat
  dsimp only
  by_cases hus : us = 0
  · subst hus
    rw [if_pos rfl, List.append_nil]
    have e0 : ∀ l : List Char, (String.mk l).toList = l := fun _ => rfl
    rw [e0]
    simp only [List.append_assoc, List.cons_append]
    rw [spanDigits_pad0 4 y _ (@noDigitHead_cons '-' _ (by decide))]
    dsimp only
    rw [if_neg (by simp [pad0_ne_nil 4 y])]
    rw [spanDigits_pad0 2 mo _ (@noDigitHead_cons '-' _ (by decide))]
    dsimp only
    rw [if_neg (by simp [pad0_ne_nil 2 mo])]
    rw [spanDigits_pad0 2 d _ (@noDigitHead_cons 'T' _ (by decide))]
    dsimp only
    rw [if_neg (by simp [pad0_ne_nil 2 d])]
    rw [spanDigits_pad0 2 h _ (@noDigitHead_cons ':' _ (by decide))]
    dsimp only
    rw [if_neg (by simp [pad0_ne_nil 2 h])]
    rw [spanDigits_pad0 2 mi _ (@noDigitHead_cons ':' _ (by decide))]
    dsimp only
    rw [if_neg (by simp [pad0_ne_nil 2 mi])]
    rw [spanDigits_pad0_nil 2 sec]
    dsimp only
    rw [if_neg (pad0_ne_nil 2 sec)]
    rw [decVal_pad0, decVal_pad0, decVal_pad0, decVal_pad0, decVal_pad0, decVal_pad0]
  · rw [if_neg hus]
    have e0 : ∀ l : List Char, (String.mk l).toList = l := fun _ => rfl
    rw [e0]
    simp only [List.append_assoc, List.cons_append]
    rw [spanDigits_pad0 4 y _ (@noDigitHead_cons '-' _ (by decide))]
    dsimp only
    rw [if_neg (by simp [pad0_ne_nil 4 y])]
    rw [spanDigits_pad0 2 mo _ (@noDigitHead_cons '-' _ (by decide))]
    dsimp only
    rw [if_neg (by simp [pad0_ne_nil 2 mo])]
    rw [spanDigits_pad0 2 d _ (@noDigitHead_cons 'T' _ (by decide))]
    dsimp only
    rw [if_neg (by simp [pad0_ne_nil 2 d])]
    rw [spanDigits_pad0 2 h _ (@noDigitHead_cons ':' _ (by decide))]
    dsimp only
    rw [if_neg (by simp [pad0_ne_nil 2 h])]
    rw [spanDigits_pad0 2 mi _ (@noDigitHead_cons ':' _ (by decide))]
    dsimp only
    rw [if_neg (by simp [pad0_ne_nil 2 mi])]
    rw [spanDigits_pad0 2 sec _ (@noDigitHead_cons '.' _ (by decide))]
    dsimp only
    rw [if_neg (by simp [pad0_ne_nil 2 sec])]
    rw [spanDigits_pad0_nil 6 us]
    dsimp only
    rw [if_neg (pad0_ne_nil 6 us)]
    rw [decVal_pad0, decVal_pad0, decVal_pad0, decVal_pad0, decVal_pad0,
      decVal_pad0, decVal_pad0]

structure StoreRow where
  id : String
  type : String
  desiredState : String
  actualState : String
  appliedAt : String
  appliedBy : String
  hostname : String
  configFile : String
  status : String

def rowOf (st : RState) : StoreRow :=
  ⟨st.id, st.type, dumps (Value.vobj st.desiredState), dumps (Value.vobj st.actualState),
   isoformat st.appliedAt, st.appliedBy, st.hostname, st.configFile, st.status⟩

def upsertRow : List StoreRow → StoreRow → List StoreRow
  | [], row => [row]
  | r :: rest, row => if r.id = row.id then row :: rest else r :: upsertRow rest row

def saveResource (db : List StoreRow) (st : RState) : List StoreRow :=
  upsertRow db (rowOf st)

def lookupRow : List StoreRow → String → Option StoreRow
  | [], _ => Option.none
  | r :: rest, rid => if r.id = rid then some r else lookupRow rest rid

def stateOfRow (row : StoreRow) : Option RState :=
  match loads row.desiredState, loads row.actualState, parseIso row.appliedAt with
  | some (Value.vobj ds), some (Value.vobj asr), some dt =>
    some ⟨row.id, row.type, ds, asr, dt, row.appliedBy, row.hostname,
      row.configFile, row.status⟩
  | _, _, _ => Option.none

def getResource (db : List StoreRow) (rid : String) : Option RState :=
  match lookupRow db rid with
  | Option.none => Option.none
  | some row => stateOfRow row

theorem lookupRow_upsert (db : List StoreRow) (row : StoreRow) :
    lookupRow (upsertRow db row) row.id = some row := by
  induction db with
  | nil => simp [upsertRow, lookupRow]
  | cons r rest ih =>
    unfold upsertRow
    by_cases h : r.id = row.id
    · rw [if_pos h]
      simp [lookupRow]
    · rw [if_neg h]
      unfold lookupRow
      rw [if_neg h]
      exact ih

theorem stateOfRow_rowOf (st : RState) : stateOfRow (rowOf st) = some st := by
  unfold stateOfRow rowOf
  dsimp only
  rw [loads_dumps (Value.vobj st.desiredState), loads_dumps (Value.vobj st.actualState),
    parseIso_isoformat st.appliedAt]

@[reducible] def validDT (dt : PyDateTime) : Prop :=
  1 ≤ dt.year ∧ dt.year ≤ 9999 ∧ 1 ≤ dt.month ∧ dt.month ≤ 12 ∧
  1 ≤ dt.day ∧ dt.day ≤ 31 ∧ dt.hour ≤ 23 ∧ dt.minute ≤ 59 ∧
  dt.second ≤ 59 ∧ dt.microsecond ≤ 999999

/-- C9: for every ResourceState whose timestamp satisfies the datetime field
invariants, Store.save_resource followed by Store.get_resource on its id
returns a ResourceState equal field-by-field to the one saved (round trip
through the persisted TEXT columns: json.dumps/loads on the two state dicts,
isoformat/fromisoformat on the timestamp). -/
theorem c9_store_roundtrip (db : List StoreRow) (st : RState) (h : validDT st.appliedAt) :
    getResource (saveResource db st) st.id = some st := by
  unfold getResource saveResource
  have hid : (rowOf st).id = st.id := rfl
  rw [← hid, lookupRow_upsert db (rowOf st)]
  exact stateOfRow_rowOf st


def stW : RState :=
  ⟨"file:/etc/motd", "file",
   [("exists", Value.vbool true), ("content", Value.vstr "hello\n"),
    ("mode", Value.vstr "0644")],
   [("exists", Value.vbool true), ("content", Value.vstr "stale"),
    ("mode", Value.vnull)],
   ⟨2025, 3, 14, 15, 9, 26, 535897⟩, "root", "web-1", "site.py", "success"⟩

/-- Witness for C9 at a concrete ResourceState with a microsecond-bearing
timestamp and non-ASCII-free string states. -/
theorem c9_store_roundtrip_witness :
    validDT stW.appliedAt ∧ getResource (saveResource [] stW) stW.id = some stW :=
  ⟨by decide, c9_store_roundtrip [] stW (by decide)⟩

end Cook
